import Mathlib

set_option maxHeartbeats 1600000
set_option maxRecDepth 4000

/-!
Shallow embedding of the Squirmy query-builder engine
(src/squirmy/querybuilder.ts, the module imported by src/squirmy/index.ts).

JavaScript runtime values are modelled by the inductive `Value`; machine
behaviour of the external pg transport (positional-parameter conversion of
`undefined` to SQL NULL, rejection of `connect()` on an already-connected
pool client, rejection of statements with an empty WHERE clause) is modelled
explicitly where the source relies on it.  Database state is a list of
tables, each a list of rows; the transaction coordinator keeps client
statements pending until COMMIT and discards them on ROLLBACK, while pool
statements apply immediately (read-committed visibility).
-/

namespace Squirmy

/-- JavaScript values as they flow through the query builder.  `vUuid n`
is the opaque string produced by the n-th call of the uuid generator;
`vDate t` is a Date holding instant `t`. -/
inductive Value where
  | vNull : Value
  | vUndef : Value
  | vNum : Int → Value
  | vNaN : Value
  | vStr : String → Value
  | vBool : Bool → Value
  | vDate : Nat → Value
  | vUuid : Nat → Value
  deriving DecidableEq, Repr

/-- JavaScript truthiness (`!value` in the source negates this). -/
def Value.truthy : Value → Bool
  | .vNull => false
  | .vUndef => false
  | .vNum n => n != 0
  | .vNaN => false
  | .vStr s => s != ""
  | .vBool b => b
  | .vDate _ => true
  | .vUuid _ => true

/-- The JavaScript `Number(value)` coercion used by `processFields` for
integer-tagged fields.  Numeric-string parsing is modelled by
`String.toInt?`; non-numeric strings (and uuid strings) give NaN. -/
def jsNumber : Value → Value
  | .vNull => .vNum 0
  | .vUndef => .vNaN
  | .vNum n => .vNum n
  | .vNaN => .vNaN
  | .vStr s => if s = "" then .vNum 0 else
      match s.toInt? with
      | some n => .vNum n
      | none => .vNaN
  | .vBool b => .vNum (if b then 1 else 0)
  | .vDate t => .vNum (t : Int)
  | .vUuid _ => .vNaN

/-- The pg driver serializes an `undefined` positional parameter as SQL
NULL (`prepareValue`); every other modelled value passes through. -/
def pgParam : Value → Value
  | .vUndef => .vNull
  | v => v

/-- Relation kinds declared in the schema. -/
inductive RelType where
  | hasMany | hasOne | belongsTo | manyToMany
  deriving DecidableEq, Repr

/-- A relation descriptor as read from the parsed JSON schema. -/
structure Relation where
  type : RelType
  model : String
  foreignKey : String
  junctionTable : Option String := none
  relatedKey : Option String := none
  references : Option String := none
  onDelete : Option String := none
  onUpdate : Option String := none
  deriving DecidableEq, Repr

/-- A table definition: ordered field map (name to type tag), relations,
required and optional field-name lists, optional primary key. -/
structure TableDef where
  fields : List (String × String)
  relations : List (String × Relation) := []
  required : List String := []
  optional : List String := []
  primaryKey : Option String := none
  deriving DecidableEq, Repr

/-- The parsed schema: a mapping from table name to definition. -/
abbrev Schema := List (String × TableDef)

/-- Truthiness of an optional string property of a JS object
(absent and empty string are both falsy). -/
def jsStrTruthy : Option String → Bool
  | none => false
  | some s => s != ""

def jsOptFalsy (o : Option String) : Bool := !(jsStrTruthy o)

/-- `processFields`: type-tag-driven normalisation of a partial record,
iterating the entries in order.  `fresh` seeds the uuid generator (bumped
per generated uuid), `now` is the current instant. -/
def processFields (td : TableDef) : List (String × Value) → Nat → Nat → List (String × Value)
  | [], _, _ => []
  | (f, v) :: rest, fresh, now =>
    let tag := td.fields.lookup f
    if tag == some "uuid" && !v.truthy then
      (f, .vUuid fresh) :: processFields td rest (fresh + 1) now
    else if tag == some "serial" then processFields td rest fresh now
    else if tag == some "integer" then
      (f, if v = .vUndef then .vNull else jsNumber v) :: processFields td rest fresh now
    else if tag == some "timestamp" && !v.truthy then
      (f, .vDate now) :: processFields td rest fresh now
    else (f, v) :: processFields td rest fresh now

/-- Number of uuid values `processFields` generates on this input
(used to advance the generator seed). -/
def uuidUses (td : TableDef) (data : List (String × Value)) : Nat :=
  (data.filter (fun fv => td.fields.lookup fv.1 == some "uuid" && !fv.2.truthy)).length

/-- Engine errors, with `wrap ctx e` for the catch blocks that re-throw
with the attempted method named in the message. -/
inductive Err where
  | validationMissing : List String → Err
  | validationInvalid : List String → Err
  | tableCreate : Err
  | relationNotFound : String → Err
  | invalidManyToMany : String → Err
  | recordNotFound : Int → Err
  | sqlSyntax : Err
  | execFail : Err
  | clientReuse : Err
  | jsTypeError : Err
  | wrap : String → Err → Err
  deriving DecidableEq, Repr

/-- `validateData` (create path): missing required fields first, then
fields neither declared (with a truthy tag) nor listed as optional. -/
def validateData (td : TableDef) (data : List (String × Value)) : Except Err Unit :=
  let missing := td.required.filter (fun f => (data.lookup f).isNone)
  if missing ≠ [] then .error (.validationMissing missing)
  else
    let invalid := (data.map Prod.fst).filter
      (fun f => !jsStrTruthy (td.fields.lookup f) && !td.optional.contains f)
    if invalid ≠ [] then .error (.validationInvalid invalid) else .ok ()

/-- `validatePartialData` (update path): rejects keys not present in
the declared field map (optional-only names are not admitted here). -/
def validatePartialData (td : TableDef) (data : List (String × Value)) : Except Err Unit :=
  let invalid := (data.map Prod.fst).filter (fun f => (td.fields.lookup f).isNone)
  if invalid ≠ [] then .error (.validationInvalid invalid) else .ok ()

/-- The identifier-quoting policy: every table/column identifier is
wrapped in double quotes. -/
def quoteId (s : String) : String := "\"" ++ s ++ "\""

/-- `$1, $2, ...` value-placeholder fragments. -/
def placeholderList (n : Nat) : List String :=
  (List.range n).map (fun i => "$" ++ toString (i + 1))

/-- `"k1" = $s+1 AND "k2" = $s+2 ...` equality-conjunction text over the
given keys, with placeholders starting at index `s + 1`. -/
def whereCondsText (keys : List String) (s : Nat) : String :=
  String.intercalate " AND "
    (keys.enum.map (fun p => quoteId p.2 ++ " = $" ++ toString (p.1 + s + 1)))

/-- `", k = $i"` assignment-list text for SET clauses. -/
def setCondsText (keys : List String) : String :=
  String.intercalate ", "
    (keys.enum.map (fun p => quoteId p.2 ++ " = $" ++ toString (p.1 + 1)))

/-- Statement synthesis for `create`: INSERT text built from the
post-processed keys, values passed positionally. -/
def insertQuery (table : String) (processed : List (String × Value)) : String × List Value :=
  ("INSERT INTO " ++ quoteId table ++ " (" ++
     String.intercalate ", " ((processed.map Prod.fst).map quoteId) ++
   ") VALUES (" ++ String.intercalate ", " (placeholderList processed.length) ++
   ") RETURNING *",
   processed.map Prod.snd)

/-- Options record of `findAll`. -/
structure FindOptions where
  whereC : List (String × Value) := []
  orderBy : Option String := none
  limit : Option Int := none
  offset : Option Int := none
  deriving DecidableEq, Repr

/-- Statement synthesis for `findAll`: WHERE only when the filter map is
non-empty (filter values positional); ORDER BY, LIMIT and OFFSET are
string-interpolated into the text when truthy. -/
def findAllQuery (table : String) (o : FindOptions) : String × List Value :=
  let base := "SELECT * FROM " ++ quoteId table
  let withWhere :=
    if o.whereC.length > 0 then
      (base ++ " WHERE " ++ whereCondsText (o.whereC.map Prod.fst) 0, o.whereC.map Prod.snd)
    else (base, ([] : List Value))
  let t1 := match o.orderBy with
    | some ob => withWhere.1 ++ " ORDER BY " ++ ob
    | none => withWhere.1
  let t2 := match o.limit with
    | some l => if l != 0 then t1 ++ " LIMIT " ++ toString l else t1
    | none => t1
  let t3 := match o.offset with
    | some off => if off != 0 then t2 ++ " OFFSET " ++ toString off else t2
    | none => t2
  (t3, withWhere.2)

/-- Statement synthesis for `findOne`: a WHERE clause is always emitted,
even for an empty filter map. -/
def findOneQuery (table : String) (whereC : List (String × Value)) : String × List Value :=
  ("SELECT * FROM " ++ quoteId table ++ " WHERE " ++
     whereCondsText (whereC.map Prod.fst) 0 ++ " LIMIT 1",
   whereC.map Prod.snd)

/-- Statement synthesis for `update` by primary key. -/
def updateQuery (table : String) (processed : List (String × Value)) (id : Int) :
    String × List Value :=
  ("UPDATE " ++ quoteId table ++ " SET " ++ setCondsText (processed.map Prod.fst) ++
     " WHERE id = $" ++ toString (processed.length + 1) ++ " RETURNING *",
   processed.map Prod.snd ++ [.vNum id])

/-- Statement synthesis for `updateMany` (filter update). -/
def updateManyQuery (table : String) (processed whereC : List (String × Value)) :
    String × List Value :=
  ("UPDATE " ++ quoteId table ++ " SET " ++ setCondsText (processed.map Prod.fst) ++
     " WHERE " ++ whereCondsText (whereC.map Prod.fst) processed.length ++
     " RETURNING id",
   processed.map Prod.snd ++ whereC.map Prod.snd)

/-- Statement synthesis for `delete` by primary key (fixed text). -/
def deleteByIdQuery (table : String) (id : Int) : String × List Value :=
  ("DELETE FROM " ++ quoteId table ++ " WHERE id = $1 RETURNING *", [.vNum id])

/-- Statement synthesis for `deleteMany` (filter delete). -/
def deleteManyQuery (table : String) (whereC : List (String × Value)) : String × List Value :=
  ("DELETE FROM " ++ quoteId table ++ " WHERE " ++ whereCondsText (whereC.map Prod.fst) 0,
   whereC.map Prod.snd)

/-- Statement synthesis for the `count` half of `paginate`
(WHERE emitted only when conditions exist). -/
def countQuery (table : String) (whereC : List (String × Value)) : String × List Value :=
  let conds := whereCondsText (whereC.map Prod.fst) 0
  ("SELECT COUNT(*) FROM " ++ quoteId table ++
     (if conds ≠ "" then " WHERE " ++ conds else ""),
   whereC.map Prod.snd)

/-- `findById` statement (fixed text, id positional). -/
def findByIdQuery (table : String) (id : Int) : String × List Value :=
  ("SELECT * FROM " ++ quoteId table ++ " WHERE id = $1", [.vNum id])

/-! ## Database state and statement semantics -/

/-- A row: field name to stored value, in column order. -/
abbrev Row := List (String × Value)

/-- Database state: table name to row list; a table is present iff it
has been created. -/
abbrev DB := List (String × List Row)

/-- Reading a column that the row does not carry yields `undefined`
(pg decodes absent columns as such on the JS side of the model). -/
def Row.getF (r : Row) (f : String) : Value := ((r.lookup f).getD .vUndef)

/-- Replace the value of field `f` (in place) or append it, as the JS
spread-and-override `\x7b...obj, [f]: v\x7d` does. -/
def Row.setF : Row → String → Value → Row
  | [], f, v => [(f, v)]
  | (g, w) :: rest, f, v =>
    if g = f then (f, v) :: rest else (g, w) :: Row.setF rest f v

def DB.hasTable (db : DB) (t : String) : Bool := (db.lookup t).isSome

def DB.rowsOf (db : DB) (t : String) : List Row := (db.lookup t).getD []

/-- Replace the row list of table `t`, creating the table if absent. -/
def DB.setRows : DB → String → List Row → DB
  | [], t, rs => [(t, rs)]
  | (u, old) :: rest, t, rs =>
    if u = t then (t, rs) :: rest else (u, old) :: DB.setRows rest t rs

/-- SQL equality: comparisons against NULL never match. -/
def sqlEq (a b : Value) : Bool := a != .vNull && b != .vNull && a == b

/-- A row satisfies a conjunction of equality conditions; condition
values go through positional-parameter conversion. -/
def rowMatches (r : Row) (conds : List (String × Value)) : Bool :=
  conds.all (fun c => sqlEq (r.getF c.1) (pgParam c.2))

/-- Apply a SET assignment list to a row. -/
def applySets (r : Row) (sets : List (String × Value)) : Row :=
  sets.foldl (fun acc fv => Row.setF acc fv.1 fv.2) r

/-- The statement shapes the engine submits to the transport. -/
inductive Stmt where
  | begin : Stmt
  | commit : Stmt
  | rollback : Stmt
  | createTable : String → Stmt
  | insertS : String → Row → Stmt
  | selectS : String → Stmt
  | updateByIdS : String → List (String × Value) → Value → Stmt
  | updateWhereS : String → List (String × Value) → List (String × Value) → Stmt
  | deleteByIdS : String → Value → Stmt
  | deleteWhereS : String → List (String × Value) → Stmt
  deriving DecidableEq, Repr

/-- Effect of a statement on committed database state.  SELECT and the
transaction-control statements do not modify state. -/
def applyStmt : Stmt → DB → DB
  | .createTable t, db => if db.hasTable t then db else db ++ [(t, [])]
  | .insertS t r, db => db.setRows t (db.rowsOf t ++ [r])
  | .updateByIdS t sets idv, db =>
    db.setRows t ((db.rowsOf t).map
      (fun r => if sqlEq (r.getF "id") (pgParam idv) then applySets r sets else r))
  | .updateWhereS t sets conds, db =>
    db.setRows t ((db.rowsOf t).map
      (fun r => if rowMatches r conds then applySets r sets else r))
  | .deleteByIdS t idv, db =>
    db.setRows t ((db.rowsOf t).filter (fun r => !sqlEq (r.getF "id") (pgParam idv)))
  | .deleteWhereS t conds, db =>
    db.setRows t ((db.rowsOf t).filter (fun r => !rowMatches r conds))
  | _, db => db

/-- Execution state threaded through an operation: committed database,
statements pending on the open transaction connection, the ordered trace
of successfully executed statements, the uuid seed, the clock, and the
pool acquire/release counters. -/
structure ExecSt where
  db : DB
  pending : List Stmt := []
  trace : List Stmt := []
  fresh : Nat := 0
  now : Nat := 0
  acquired : Nat := 0
  released : Nat := 0
  deriving DecidableEq, Repr

/-- Run a statement on an autocommit pool connection: applies
immediately to committed state. -/
def poolExec (st : ExecSt) (s : Stmt) : ExecSt :=
  { st with db := applyStmt s st.db, trace := st.trace ++ [s] }

/-- The view a statement inside the open transaction observes:
committed state with the pending statements replayed (read-committed
visibility of other connections is retained because `db` is current). -/
def txView (st : ExecSt) : DB := st.pending.foldl (fun db s => applyStmt s db) st.db

/-- Run a statement on the transaction client: recorded as pending
(applied at COMMIT, discarded at ROLLBACK). -/
def clientExec (st : ExecSt) (s : Stmt) : ExecSt :=
  { st with pending := st.pending ++ [s], trace := st.trace ++ [s] }

/-- Which connection a query-builder instance holds: the shared pool, or
an already-checked-out transaction client (as when `updateMany` passes
its client to a nested builder). -/
inductive Conn where
  | pool | client
  deriving DecidableEq, Repr

/-- `withTransaction`: acquire a connection, BEGIN, run the body, COMMIT
on success or ROLLBACK on error, always releasing the connection.
Calling `connect()` on an already-connected pool client rejects
(pg: a checked-out client cannot be reused), before anything is
acquired or begun.  The transaction runs on its own freshly acquired
connection: statements pending on an enclosing client connection are
untouched by it and are restored on exit. -/
def withTransaction (conn : Conn) (body : ExecSt → Except Err α × ExecSt)
    (st : ExecSt) : Except Err α × ExecSt :=
  match conn with
  | .client => (.error .clientReuse, st)
  | .pool =>
    let st1 := { st with
      acquired := st.acquired + 1,
      pending := [],
      trace := st.trace ++ [Stmt.begin] }
    match body st1 with
    | (.ok a, st2) =>
      (.ok a, { st2 with
        db := txView st2,
        pending := st.pending,
        trace := st2.trace ++ [Stmt.commit],
        released := st2.released + 1 })
    | (.error e, st2) =>
      (.error e, { st2 with
        pending := st.pending,
        trace := st2.trace ++ [Stmt.rollback],
        released := st2.released + 1 })

/-! ## Operations -/

/-- The belongsTo foreign-key constraint checks of
`createTableIfNotExists`: the foreign-key column must be declared, the
related model must exist, and its primary key must be set. -/
def belongsToOk (σ : Schema) (td : TableDef) (rel : Relation) : Bool :=
  jsStrTruthy (td.fields.lookup rel.foreignKey) &&
  (match σ.lookup rel.model with
   | none => false
   | some rtd => jsStrTruthy rtd.primaryKey)

def createTableCheck (σ : Schema) (td : TableDef) : Bool :=
  td.relations.all (fun nr => nr.2.type != .belongsTo || belongsToOk σ td nr.2)

/-- `createTableIfNotExists`: runs the DDL on the pool, or fails with
the generic wrapped table-creation error. -/
def createTableStep (σ : Schema) (table : String) (td : TableDef) (st : ExecSt) :
    Except Err Unit × ExecSt :=
  if createTableCheck σ td then (.ok (), poolExec st (.createTable table))
  else (.error .tableCreate, st)

/-- Serial columns omitted from the write set are filled by the backing
store; the generated value is modelled as one past the current row
count. -/
def completeRow (td : TableDef) (row : Row) (seq : Nat) : Row :=
  td.fields.foldl
    (fun r ft => if ft.2 = "serial" && (r.lookup ft.1).isNone
                 then r ++ [(ft.1, .vNum (seq : Int))] else r) row

/-- The parent INSERT of `create`, executed on the transaction client;
RETURNING * yields the stored row. -/
def insertClientStep (table : String) (td : TableDef) (row : Row) (st : ExecSt) :
    Except Err Row × ExecSt :=
  if !(txView st).hasTable table then (.error .execFail, st)
  else
    let stored := completeRow td (row.map (fun p => (p.1, pgParam p.2)))
      (((txView st).rowsOf table).length + 1)
    (.ok stored, clientExec st (.insertS table stored))

/-- The body of `create` up to and including the parent INSERT:
ensure the table, validate, process fields, insert. -/
def createBodyCore (σ : Schema) (table : String) (td : TableDef)
    (data : List (String × Value)) (st : ExecSt) : Except Err Row × ExecSt :=
  match createTableStep σ table td st with
  | (.error e, st1) => (.error e, st1)
  | (.ok _, st1) =>
    match validateData td data with
    | .error e => (.error e, st1)
    | .ok _ =>
      let processed := processFields td data st1.fresh st1.now
      let st2 := { st1 with fresh := st1.fresh + uuidUses td data }
      insertClientStep table td processed st2

/-- `create(data)` without a relations argument (the shape used by the
recursive relation fan-out, which never forwards relations). -/
def createNoRel (σ : Schema) (table : String) (td : TableDef)
    (data : List (String × Value)) (conn : Conn) (st : ExecSt) :
    Except Err Row × ExecSt :=
  withTransaction conn (fun st0 =>
    match createBodyCore σ table td data st0 with
    | (.ok r, st1) => (.ok r, st1)
    | (.error e, st1) => (.error (.wrap "create" e), st1)) st

/-- A relation payload supplied to `create(data, relations)`: a single
record, an array of records, an array of identifier values, or a
primitive (including `undefined`). -/
inductive RelPayload where
  | objP : Row → RelPayload
  | arrObjP : List Row → RelPayload
  | arrIdP : List Value → RelPayload
  | primP : Value → RelPayload
  deriving DecidableEq, Repr

/-- JS spread of a non-array payload into an object literal: records
keep their fields, primitives contribute none (character enumeration of
the opaque uuid string is not modelled). -/
def spreadPayload : RelPayload → Row
  | .objP r => r
  | _ => []

/-- Spread of a bare JS value (the payload type reaching relation
handlers through `updateMany`, where only schema fields can carry it). -/
def spreadValue : Value → Row
  | .vStr s => (s.toList.enum.map (fun p => (toString p.1, Value.vStr (String.singleton p.2))))
  | _ => []

/-- `createRelatedRecords` fan-out: one full nested `create` per related
record, foreign key forced to the parent id, on a fresh pool connection. -/
def createEach (σ : Schema) (model : String) (rtd : TableDef) (fk : String)
    (parentId : Value) : List Row → ExecSt → Except Err Unit × ExecSt
  | [], st => (.ok (), st)
  | r :: rs, st =>
    match createNoRel σ model rtd (Row.setF r fk parentId) .pool st with
    | (.ok _, st1) => createEach σ model rtd fk parentId rs st1
    | (.error e, st1) => (.error e, st1)

def createRelatedStep (σ : Schema) (rel : Relation) (parentId : Value)
    (payload : RelPayload) (st : ExecSt) : Except Err Unit × ExecSt :=
  match σ.lookup rel.model with
  | none => (.error .jsTypeError, st)
  | some rtd =>
    match payload with
    | .arrObjP items => createEach σ rel.model rtd rel.foreignKey parentId items st
    | .arrIdP vals =>
      createEach σ rel.model rtd rel.foreignKey parentId (vals.map (fun _ => [])) st
    | p =>
      match createNoRel σ rel.model rtd
          (Row.setF (spreadPayload p) rel.foreignKey parentId) .pool st with
      | (.ok _, st1) => (.ok (), st1)
      | (.error e, st1) => (.error e, st1)

/-- `updateForeignKey`: a single UPDATE of the current table's
foreign-key column, issued on the builder's own pool connection. -/
def updateForeignKeyStep (table fk : String) (childId parentVal : Value)
    (st : ExecSt) : ExecSt :=
  poolExec st (.updateByIdS table [(fk, pgParam parentVal)] childId)

/-- `createManyToManyRelation`: config check, then one junction INSERT
per target id (no diffing on the create path).  Iterating a non-array
payload with for..of raises a TypeError, except over a string, which
yields its characters. -/
def createManyToManyStep (rel : Relation) (sourceId : Value)
    (payload : RelPayload) (st : ExecSt) : Except Err Unit × ExecSt :=
  if jsOptFalsy rel.junctionTable || jsOptFalsy rel.relatedKey then
    (.error (.invalidManyToMany rel.model), st)
  else
    let jt := rel.junctionTable.getD ""
    let rk := rel.relatedKey.getD ""
    match payload with
    | .arrIdP vals =>
      (.ok (), vals.foldl (fun s v =>
        poolExec s (.insertS jt [(rel.foreignKey, pgParam sourceId), (rk, pgParam v)])) st)
    | .primP (.vStr cs) =>
      (.ok (), cs.toList.foldl (fun s c =>
        poolExec s (.insertS jt [(rel.foreignKey, pgParam sourceId),
                                 (rk, .vStr (String.singleton c))])) st)
    | _ => (.error .jsTypeError, st)

/-- Per-relation dispatch on the create path. -/
def relStepCreate (σ : Schema) (table : String) (rel : Relation) (parentId : Value)
    (payload : RelPayload) (st : ExecSt) : Except Err Unit × ExecSt :=
  match rel.type with
  | .hasMany | .hasOne => createRelatedStep σ rel parentId payload st
  | .belongsTo =>
    (.ok (), updateForeignKeyStep table rel.foreignKey parentId
      (match payload with | .primP v => v | _ => .vStr "[object]") st)
  | .manyToMany => createManyToManyStep rel parentId payload st

/-- The relation loop of `create`: resolved sequentially, failing fast
on an unknown relation name. -/
def relLoopCreate (σ : Schema) (table : String) (td : TableDef) (parentId : Value) :
    List (String × RelPayload) → ExecSt → Except Err Unit × ExecSt
  | [], st => (.ok (), st)
  | (name, payload) :: rest, st =>
    match td.relations.lookup name with
    | none => (.error (.relationNotFound name), st)
    | some rel =>
      match relStepCreate σ table rel parentId payload st with
      | (.ok _, st1) => relLoopCreate σ table td parentId rest st1
      | (.error e, st1) => (.error e, st1)

/-- `create(data, relations?)`: the whole unit of work inside the
transaction coordinator, errors wrapped with the method context. -/
def create (σ : Schema) (table : String) (td : TableDef)
    (data : List (String × Value)) (rels : Option (List (String × RelPayload)))
    (st : ExecSt) : Except Err Row × ExecSt :=
  withTransaction .pool (fun st0 =>
    match createBodyCore σ table td data st0 with
    | (.error e, st1) => (.error (.wrap "create" e), st1)
    | (.ok row, st1) =>
      match rels with
      | none => (.ok row, st1)
      | some rl =>
        match relLoopCreate σ table td (row.getF "id") rl st1 with
        | (.ok _, st2) => (.ok row, st2)
        | (.error e, st2) => (.error (.wrap "create" e), st2)) st

/-- Rows of `t` matching a conjunctive filter. -/
def selectRows (db : DB) (t : String) (conds : List (String × Value)) : List Row :=
  (db.rowsOf t).filter (fun r => rowMatches r conds)

/-- `findAll`: unfiltered when the filter map is empty; OFFSET before
LIMIT, each applied only when truthy (row ordering by ORDER BY is
presentation only and not modelled). -/
def findAll (table : String) (o : FindOptions) (st : ExecSt) :
    Except Err (List Row) × ExecSt :=
  if !(st.db.hasTable table) then
    (.error (.wrap "findAll" .execFail), st)
  else
    let matched := selectRows st.db table o.whereC
    let afterOff := match o.offset with
      | some off => if off != 0 then matched.drop off.toNat else matched
      | none => matched
    let res := match o.limit with
      | some l => if l != 0 then afterOff.take l.toNat else afterOff
      | none => afterOff
    (.ok res, poolExec st (.selectS table))

/-- `findOne`: always emits a WHERE clause, so an empty filter map
produces a malformed statement the backing store rejects. -/
def findOne (table : String) (whereC : List (String × Value)) (st : ExecSt) :
    Except Err (Option Row) × ExecSt :=
  if whereC = ([] : List (String × Value)) then
    (.error (.wrap "findOne" .sqlSyntax), st)
  else if !(st.db.hasTable table) then (.error (.wrap "findOne" .execFail), st)
  else (.ok (selectRows st.db table whereC).head?, poolExec st (.selectS table))

/-- The per-builder result cache: key to cached row plus store time;
entries live for the 600-second default TTL. -/
abbrev Cache := List (String × (Row × Nat))

def cacheGet (c : Cache) (key : String) (now : Nat) : Option Row :=
  match c.lookup key with
  | some (r, t) => if now < t + 600 then some r else none
  | none => none

def cacheSet : Cache → String → Row → Nat → Cache
  | [], key, r, now => [(key, (r, now))]
  | (k, e) :: rest, key, r, now =>
    if k = key then (key, (r, now)) :: rest else (k, e) :: cacheSet rest key r now

/-- The cache key `table:findById:[id]` (stringified argument list). -/
def fidKey (table : String) (id : Int) : String :=
  table ++ ":findById:[" ++ toString id ++ "]"

/-- `findById`: cached record returned without a statement on a hit;
on a miss the SELECT runs and only a found record is cached. -/
def findById (table : String) (id : Int) (cache : Cache) (st : ExecSt) :
    Except Err (Option Row) × Cache × ExecSt :=
  match cacheGet cache (fidKey table id) st.now with
  | some r => (.ok (some r), cache, st)
  | none =>
    if !(st.db.hasTable table) then
      (.error (.wrap "findById" .execFail), cache, st)
    else
      match (selectRows st.db table [("id", .vNum id)]).head? with
      | some r => (.ok (some r), cacheSet cache (fidKey table id) r st.now,
                   poolExec st (.selectS table))
      | none => (.ok none, cache, poolExec st (.selectS table))

/-- `updateManyToManyRelation` (the diff-based reconciler): read current
related ids, compute toAdd and toRemove by set difference, insert one
junction row per toAdd member, delete by exact pair per toRemove member. -/
def junctionRelated (db : DB) (jt fk rk : String) (src : Value) : List Value :=
  (selectRows db jt [(fk, src)]).map (fun r => r.getF rk)

def updateManyToManyRelation (rel : Relation) (sourceId : Value)
    (targetIds : List Value) (st : ExecSt) : Except Err Unit × ExecSt :=
  if jsOptFalsy rel.junctionTable || jsOptFalsy rel.relatedKey then
    (.error (.invalidManyToMany rel.model), st)
  else
    let jt := rel.junctionTable.getD ""
    let rk := rel.relatedKey.getD ""
    let fk := rel.foreignKey
    if !(st.db.hasTable jt) then (.error .execFail, st)
    else
      let existing := junctionRelated st.db jt fk rk sourceId
      let toAdd := targetIds.filter (fun id => !existing.contains id)
      let toRemove := existing.filter (fun id => !targetIds.contains id)
      let st1 := poolExec st (.selectS jt)
      let st2 := toAdd.foldl (fun s id =>
        poolExec s (.insertS jt [(fk, pgParam sourceId), (rk, pgParam id)])) st1
      let st3 := toRemove.foldl (fun s id =>
        poolExec s (.deleteWhereS jt [(fk, sourceId), (rk, id)])) st2
      (.ok (), st3)

/-- ManyToMany dispatch reached with a bare value payload (the
`updateMany` path): after the config check the SELECT of current
relations executes, then `.filter` on the non-array payload raises. -/
def m2mValuePayload (rel : Relation) (_sourceId : Value) (_payload : Value)
    (st : ExecSt) : Except Err Unit × ExecSt :=
  if jsOptFalsy rel.junctionTable || jsOptFalsy rel.relatedKey then
    (.error (.invalidManyToMany rel.model), st)
  else if !(st.db.hasTable (rel.junctionTable.getD "")) then (.error .execFail, st)
  else (.error .jsTypeError, poolExec st (.selectS (rel.junctionTable.getD "")))

/-- `updateRelation` with a bare value payload: hasMany/hasOne spread
the value into a nested `create` on the builder's connection; belongsTo
updates the parent-table foreign key on the pool; manyToMany goes
through the reconciler entry. -/
def updateRelationStep (σ : Schema) (table : String) (rel : Relation)
    (parentId : Value) (payload : Value) (conn : Conn) (st : ExecSt) :
    Except Err Unit × ExecSt :=
  match rel.type with
  | .hasMany | .hasOne =>
    match σ.lookup rel.model with
    | none => (.error .jsTypeError, st)
    | some rtd =>
      match createNoRel σ rel.model rtd
          (Row.setF (spreadValue payload) rel.foreignKey parentId) conn st with
      | (.ok _, st1) => (.ok (), st1)
      | (.error e, st1) => (.error e, st1)
  | .belongsTo => (.ok (), updateForeignKeyStep table rel.foreignKey parentId payload st)
  | .manyToMany => m2mValuePayload rel parentId payload st

/-- Inner loop of `updateMany`'s relation cascade: every declared
relation of the table, with payload `data[relationName]`. -/
def relLoopUMRels (σ : Schema) (table : String) (data : List (String × Value))
    (id : Value) : List (String × Relation) → ExecSt → Except Err Unit × ExecSt
  | [], st => (.ok (), st)
  | (name, rel) :: rest, st =>
    match updateRelationStep σ table rel id ((data.lookup name).getD .vUndef)
        .client st with
    | (.ok _, st1) => relLoopUMRels σ table data id rest st1
    | (.error e, st1) => (.error e, st1)

def relLoopUM (σ : Schema) (table : String) (td : TableDef)
    (data : List (String × Value)) : List Value → ExecSt → Except Err Unit × ExecSt
  | [], st => (.ok (), st)
  | id :: ids, st =>
    match relLoopUMRels σ table data id td.relations st with
    | (.ok _, st1) => relLoopUM σ table td data ids st1
    | (.error e, st1) => (.error e, st1)

/-- `updateMany(where, data)`: transactional filter update returning the
affected ids, then the relation cascade over every declared relation for
every updated id. -/
def updateMany (σ : Schema) (table : String) (td : TableDef)
    (whereC data : List (String × Value)) (st : ExecSt) : Except Err Int × ExecSt :=
  withTransaction .pool (fun st0 =>
    match validatePartialData td data with
    | .error e => (.error (.wrap "updateMany" e), st0)
    | .ok _ =>
      let processed := processFields td data st0.fresh st0.now
      let st1 := { st0 with fresh := st0.fresh + uuidUses td data }
      if processed = [] ∨ whereC = [] then (.error (.wrap "updateMany" .sqlSyntax), st1)
      else if !(txView st1).hasTable table then (.error (.wrap "updateMany" .execFail), st1)
      else
        let setsP := processed.map (fun p => (p.1, pgParam p.2))
        let matched := ((txView st1).rowsOf table).filter (fun r => rowMatches r whereC)
        let ids := matched.map (fun r => (applySets r setsP).getF "id")
        let st2 := clientExec st1 (.updateWhereS table setsP whereC)
        match relLoopUM σ table td data ids st2 with
        | (.ok _, st3) => (.ok (ids.length : Int), st3)
        | (.error e, st3) => (.error (.wrap "updateMany" e), st3)) st

/-- `update(id, data)`: non-transactional keyed update; raises when no
row matches; the `data.relations` branch loops over the entries of that
value when truthy. -/
def update (σ : Schema) (table : String) (td : TableDef) (id : Int)
    (data : List (String × Value)) (st : ExecSt) : Except Err Row × ExecSt :=
  match validatePartialData td data with
  | .error e => (.error (.wrap "update" e), st)
  | .ok _ =>
    let processed := processFields td data st.fresh st.now
    let st0 := { st with fresh := st.fresh + uuidUses td data }
    if processed = [] then (.error (.wrap "update" .sqlSyntax), st0)
    else if !(st0.db.hasTable table) then (.error (.wrap "update" .execFail), st0)
    else
      let setsP := processed.map (fun p => (p.1, pgParam p.2))
      let matched := selectRows st0.db table [("id", .vNum id)]
      let st1 := poolExec st0 (.updateByIdS table setsP (.vNum id))
      match (matched.map (fun r => applySets r setsP)).head? with
      | none => (.error (.wrap "update" (.recordNotFound id)), st1)
      | some row =>
        let rv := (data.lookup "relations").getD .vUndef
        if rv.truthy then
          match relLoopUpdateEntries σ table td (row.getF "id") (jsEntries rv) st1 with
          | (.ok _, st2) => (.ok row, st2)
          | (.error e, st2) => (.error (.wrap "update" e), st2)
        else (.ok row, st1)
where
  /-- Object.entries of a bare value: strings enumerate characters,
  other primitives contribute none (uuid-string characters unmodelled). -/
  jsEntries : Value → List (String × Value)
    | .vStr s => s.toList.enum.map (fun p => (toString p.1, Value.vStr (String.singleton p.2)))
    | _ => []
  relLoopUpdateEntries (σ : Schema) (table : String) (td : TableDef) (parentId : Value) :
      List (String × Value) → ExecSt → Except Err Unit × ExecSt
    | [], st => (.ok (), st)
    | (name, v) :: rest, st =>
      match td.relations.lookup name with
      | none => (.error (.relationNotFound name), st)
      | some rel =>
        match updateRelationStep σ table rel parentId v .pool st with
        | (.ok _, st1) => relLoopUpdateEntries σ table td parentId rest st1
        | (.error e, st1) => (.error e, st1)

/-- `delete(id)`: keyed delete; a missing row is an explicit `none`,
not an error. -/
def deleteById (table : String) (id : Int) (st : ExecSt) :
    Except Err (Option Row) × ExecSt :=
  if !(st.db.hasTable table) then (.error (.wrap "delete" .execFail), st)
  else
    (.ok (selectRows st.db table [("id", .vNum id)]).head?,
     poolExec st (.deleteByIdS table (.vNum id)))

/-- `deleteMany(where)`: always emits a WHERE clause, so an empty filter
map produces a malformed statement the backing store rejects. -/
def deleteMany (table : String) (whereC : List (String × Value)) (st : ExecSt) :
    Except Err Int × ExecSt :=
  if whereC = ([] : List (String × Value)) then
    (.error (.wrap "deleteMany" .sqlSyntax), st)
  else if !(st.db.hasTable table) then (.error (.wrap "deleteMany" .execFail), st)
  else
    (.ok ((((st.db.rowsOf table).filter (fun r => rowMatches r whereC)).length : Int)),
     poolExec st (.deleteWhereS table whereC))

/-! ## Supporting lemmas about the state model -/

theorem lookup_setRows_self (db : DB) (t : String) (rs : List Row) :
    (DB.setRows db t rs).lookup t = some rs := by
  induction db with
  | nil => simp [DB.setRows, List.lookup]
  | cons hd tl ih =>
    obtain ⟨k, v⟩ := hd
    by_cases h : k = t
    · simp [DB.setRows, h, List.lookup]
    · have hne : (t == k) = false := beq_eq_false_iff_ne.mpr (Ne.symm h)
      simpa [DB.setRows, h, List.lookup, hne] using ih

theorem lookup_setRows_ne (db : DB) (t u : String) (rs : List Row) (h : u ≠ t) :
    (DB.setRows db t rs).lookup u = db.lookup u := by
  induction db with
  | nil =>
    have hne : (u == t) = false := beq_eq_false_iff_ne.mpr h
    simp [DB.setRows, List.lookup, hne]
  | cons hd tl ih =>
    obtain ⟨k, v⟩ := hd
    by_cases h1 : k = t
    · subst h1
      have hne : (u == k) = false := beq_eq_false_iff_ne.mpr h
      simp [DB.setRows, List.lookup, hne]
    · by_cases h2 : u = k
      · simp [DB.setRows, h1, List.lookup, h2]
      · have hne : (u == k) = false := beq_eq_false_iff_ne.mpr h2
        simpa [DB.setRows, h1, List.lookup, hne] using ih

theorem rowsOf_setRows_self (db : DB) (t : String) (rs : List Row) :
    (DB.setRows db t rs).rowsOf t = rs := by
  simp [DB.rowsOf, lookup_setRows_self]

theorem rowsOf_setRows_ne (db : DB) (t u : String) (rs : List Row) (h : u ≠ t) :
    (DB.setRows db t rs).rowsOf u = db.rowsOf u := by
  simp [DB.rowsOf, lookup_setRows_ne _ _ _ _ h]

theorem hasTable_setRows_self (db : DB) (t : String) (rs : List Row) :
    (DB.setRows db t rs).hasTable t = true := by
  simp [DB.hasTable, lookup_setRows_self]

theorem hasTable_setRows_ne (db : DB) (t u : String) (rs : List Row) (h : u ≠ t) :
    (DB.setRows db t rs).hasTable u = db.hasTable u := by
  simp [DB.hasTable, lookup_setRows_ne _ _ _ _ h]

/-- Creating a table never changes any table's row list. -/
theorem rowsOf_createTable (db : DB) (t u : String) :
    (applyStmt (.createTable t) db).rowsOf u = db.rowsOf u := by
  simp only [applyStmt]
  by_cases h : db.hasTable t
  · simp [h]
  · simp only [h, Bool.false_eq_true, if_false]
    simp only [DB.hasTable] at h
    by_cases h2 : u = t
    · subst h2
      simp only [DB.rowsOf, List.lookup_append]
      cases hl : db.lookup u with
      | none => simp [List.lookup]
      | some v => rw [hl] at h; simp at h
    · have hne : (u == t) = false := beq_eq_false_iff_ne.mpr h2
      simp only [DB.rowsOf, List.lookup_append]
      cases hl : db.lookup u with
      | none => simp [List.lookup, hne]
      | some v => simp

theorem hasTable_createTable_self (db : DB) (t : String) :
    (applyStmt (.createTable t) db).hasTable t = true := by
  simp only [applyStmt]
  split
  · assumption
  · next h =>
    simp only [DB.hasTable, List.lookup_append]
    simp only [DB.hasTable] at h
    cases hl : db.lookup t with
    | none => simp [List.lookup]
    | some v => rw [hl] at h; simp at h

theorem hasTable_setRows_mono (db : DB) (u t : String) (rs : List Row)
    (h : db.hasTable t = true) : (DB.setRows db u rs).hasTable t = true := by
  by_cases h2 : t = u
  · subst h2; exact hasTable_setRows_self _ _ _
  · rw [hasTable_setRows_ne _ _ _ _ h2]; exact h

/-- Statement application preserves table existence. -/
theorem hasTable_applyStmt_mono (s : Stmt) (db : DB) (t : String)
    (h : db.hasTable t = true) : (applyStmt s db).hasTable t = true := by
  cases s with
  | begin => exact h
  | commit => exact h
  | rollback => exact h
  | selectS u => exact h
  | createTable u =>
    simp only [applyStmt]
    split
    · exact h
    · next hu =>
      simp only [DB.hasTable, List.lookup_append]
      simp only [DB.hasTable] at h
      cases hl : db.lookup t with
      | none => rw [hl] at h; simp at h
      | some v => simp
  | insertS u r => exact hasTable_setRows_mono _ _ _ _ h
  | updateByIdS u sets idv => exact hasTable_setRows_mono _ _ _ _ h
  | updateWhereS u sets conds => exact hasTable_setRows_mono _ _ _ _ h
  | deleteByIdS u idv => exact hasTable_setRows_mono _ _ _ _ h
  | deleteWhereS u conds => exact hasTable_setRows_mono _ _ _ _ h

/-- Trace accumulated by a fold of pool statements. -/
theorem foldl_poolExec_trace {α : Type} (g : α → Stmt) (ls : List α) (st : ExecSt) :
    (ls.foldl (fun s a => poolExec s (g a)) st).trace = st.trace ++ ls.map g := by
  induction ls generalizing st with
  | nil => simp
  | cons hd tl ih =>
    rw [List.foldl_cons, ih]
    simp [poolExec]

/-- Database produced by a fold of pool statements. -/
theorem foldl_poolExec_db {α : Type} (g : α → Stmt) (ls : List α) (st : ExecSt) :
    (ls.foldl (fun s a => poolExec s (g a)) st).db =
      ls.foldl (fun db a => applyStmt (g a) db) st.db := by
  induction ls generalizing st with
  | nil => simp
  | cons hd tl ih =>
    rw [List.foldl_cons, ih]
    simp [poolExec]

theorem foldl_poolExec_frame {α : Type} (g : α → Stmt) (ls : List α) (st : ExecSt) :
    (ls.foldl (fun s a => poolExec s (g a)) st).pending = st.pending ∧
    (ls.foldl (fun s a => poolExec s (g a)) st).fresh = st.fresh ∧
    (ls.foldl (fun s a => poolExec s (g a)) st).now = st.now ∧
    (ls.foldl (fun s a => poolExec s (g a)) st).acquired = st.acquired ∧
    (ls.foldl (fun s a => poolExec s (g a)) st).released = st.released := by
  induction ls generalizing st with
  | nil => simp
  | cons hd tl ih =>
    rw [List.foldl_cons]
    simpa [poolExec] using ih (poolExec st (g hd))

/-! ## A concrete demonstration schema for witnesses -/

def ownerTD : TableDef :=
  { fields := [("id", "serial"), ("name", "varchar")],
    required := ["name"],
    primaryKey := some "id" }

def petTD : TableDef :=
  { fields := [("id", "serial"), ("name", "varchar"), ("ownerId", "integer")],
    relations := [("owner",
      { type := .belongsTo, model := "Owner", foreignKey := "ownerId" })],
    required := ["name"],
    primaryKey := some "id" }

def postTD : TableDef :=
  { fields := [("id", "serial"), ("title", "varchar"), ("userId", "integer")],
    required := ["title"],
    primaryKey := some "id" }

def userTD : TableDef :=
  { fields := [("id", "serial"), ("name", "varchar"), ("age", "integer")],
    relations := [("posts",
      { type := .hasMany, model := "Post", foreignKey := "userId" })],
    required := ["name"],
    primaryKey := some "id" }

def memberTD : TableDef :=
  { fields := [("id", "serial"), ("name", "varchar")],
    relations := [("groups",
      { type := .manyToMany, model := "Group", foreignKey := "memberId",
        junctionTable := some "MemberGroup", relatedKey := some "groupId" })],
    required := ["name"],
    primaryKey := some "id" }

def demoSchema : Schema :=
  [("Owner", ownerTD), ("Pet", petTD), ("User", userTD), ("Post", postTD),
   ("Member", memberTD)]

/-! ## C1: value independence of synthesized statement text -/

/-- C1 counterexample: two `findAll` calls differing only in the value of
`limit` (filter identical, parameter lists identical) synthesize different
statement text, because `findAll` string-interpolates LIMIT/OFFSET values
instead of passing them positionally.  This refutes the claim that all
parameter values, including limit and offset, appear only in the
positional parameter list. -/
theorem C1_limit_interpolated_counterexample :
    (findAllQuery "User" { whereC := [("age", .vNum 3)], limit := some 1 }).1 ≠
      (findAllQuery "User" { whereC := [("age", .vNum 3)], limit := some 2 }).1 ∧
    (findAllQuery "User" { whereC := [("age", .vNum 3)], limit := some 1 }).2 =
      (findAllQuery "User" { whereC := [("age", .vNum 3)], limit := some 2 }).2 := by
  constructor
  · decide
  · rfl

/-- C1 (amended): for create, findOne, update, updateMany, delete,
deleteMany and the count half of paginate, the synthesized text depends
only on the schema identifiers and the keys supplied, with every caller
value passed positionally; for findAll (hence the data half of paginate)
the same holds for filter values, but the limit and offset values (and
the orderBy identifier) are interpolated into the text, so its text is a
function of the key set together with the orderBy/limit/offset options. -/
theorem C1_text_depends_only_on_keys :
    (∀ (t : String) (p q : List (String × Value)), p.map Prod.fst = q.map Prod.fst →
       (insertQuery t p).1 = (insertQuery t q).1) ∧
    (∀ (t : String) (p q : List (String × Value)), p.map Prod.fst = q.map Prod.fst →
       (findOneQuery t p).1 = (findOneQuery t q).1) ∧
    (∀ (t : String) (p q : List (String × Value)) (i j : Int),
       p.map Prod.fst = q.map Prod.fst →
       (updateQuery t p i).1 = (updateQuery t q j).1) ∧
    (∀ (t : String) (p q w x : List (String × Value)),
       p.map Prod.fst = q.map Prod.fst → w.map Prod.fst = x.map Prod.fst →
       (updateManyQuery t p w).1 = (updateManyQuery t q x).1) ∧
    (∀ (t : String) (i j : Int), (deleteByIdQuery t i).1 = (deleteByIdQuery t j).1) ∧
    (∀ (t : String) (p q : List (String × Value)), p.map Prod.fst = q.map Prod.fst →
       (deleteManyQuery t p).1 = (deleteManyQuery t q).1) ∧
    (∀ (t : String) (p q : List (String × Value)), p.map Prod.fst = q.map Prod.fst →
       (countQuery t p).1 = (countQuery t q).1) ∧
    (∀ (t : String) (o1 o2 : FindOptions),
       o1.whereC.map Prod.fst = o2.whereC.map Prod.fst → o1.orderBy = o2.orderBy →
       o1.limit = o2.limit → o1.offset = o2.offset →
       (findAllQuery t o1).1 = (findAllQuery t o2).1) ∧
    (∀ (t : String) (p : List (String × Value)),
       (insertQuery t p).2 = p.map Prod.snd) ∧
    (∀ (t : String) (p q : List (String × Value)) (i : Int),
       (updateQuery t p i).2 = p.map Prod.snd ++ [.vNum i] ∧
       (deleteManyQuery t q).2 = q.map Prod.snd) := by
  refine ⟨?_, ?_, ?_, ?_, ?_, ?_, ?_, ?_, ?_, ?_⟩
  · intro t p q h
    have hl : p.length = q.length := by
      rw [← List.length_map p Prod.fst, h, List.length_map]
    simp only [insertQuery, h, hl]
  · intro t p q h
    simp only [findOneQuery, h]
  · intro t p q i j h
    have hl : p.length = q.length := by
      rw [← List.length_map p Prod.fst, h, List.length_map]
    simp only [updateQuery, h, hl]
  · intro t p q w x h hw
    have hl : p.length = q.length := by
      rw [← List.length_map p Prod.fst, h, List.length_map]
    simp only [updateManyQuery, h, hw, hl]
  · intro t i j
    simp [deleteByIdQuery]
  · intro t p q h
    simp only [deleteManyQuery, h]
  · intro t p q h
    simp only [countQuery, h]
  · intro t o1 o2 hw hob hl ho
    obtain ⟨w1, ob1, l1, of1⟩ := o1
    obtain ⟨w2, ob2, l2, of2⟩ := o2
    simp only at hw hob hl ho
    subst hob; subst hl; subst ho
    have hlen : w1.length = w2.length := by
      rw [← List.length_map w1 Prod.fst, hw, List.length_map]
    simp only [findAllQuery, hw, hlen]
    rcases of1 with _ | off <;> rcases l1 with _ | l <;> rcases ob1 with _ | ob <;>
      by_cases hw2 : w2.length > 0 <;> simp [hw2]
  · intro t p
    simp [insertQuery]
  · intro t p q i
    exact ⟨rfl, rfl⟩

/-- C1 witness: a concrete application of the amended theorem, showing
two inserts differing only in values share statement text. -/
theorem C1_text_witness :
    (insertQuery "User" [("name", .vStr "ann")]).1 =
      (insertQuery "User" [("name", .vStr "bob")]).1 :=
  C1_text_depends_only_on_keys.1 "User" [("name", .vStr "ann")]
    [("name", .vStr "bob")] rfl

/-! ## C10: empty filter maps in deleteMany and findOne -/

/-- C10: `deleteMany` of an empty filter map synthesizes a statement
with an empty WHERE predicate, which the backing store rejects: the call
raises, deletes nothing, and leaves all state unchanged; `findOne` of an
empty filter map raises likewise and returns nothing; `findAll` without
a filter, by contrast, succeeds and selects every row. -/
theorem C10_empty_filter (table : String) (st : ExecSt)
    (h : st.db.hasTable table = true) :
    (deleteMany table [] st).1 = .error (.wrap "deleteMany" .sqlSyntax) ∧
    (deleteMany table [] st).2 = st ∧
    (findOne table [] st).1 = .error (.wrap "findOne" .sqlSyntax) ∧
    (findOne table [] st).2 = st ∧
    (findAll table {} st).1 = .ok (st.db.rowsOf table) ∧
    (findAll table {} st).2.db = st.db := by
  refine ⟨rfl, rfl, rfl, rfl, ?_, ?_⟩
  · simp [findAll, h, selectRows, rowMatches]
  · simp [findAll, h, poolExec, applyStmt]

def ex10St : ExecSt := { db := [("T", [[("id", .vNum 1)]])] }

/-- C10 witness at a concrete one-row table. -/
theorem C10_empty_filter_witness :
    (deleteMany "T" [] ex10St).1 = .error (.wrap "deleteMany" .sqlSyntax) ∧
    (deleteMany "T" [] ex10St).2 = ex10St ∧
    (findOne "T" [] ex10St).1 = .error (.wrap "findOne" .sqlSyntax) ∧
    (findOne "T" [] ex10St).2 = ex10St ∧
    (findAll "T" {} ex10St).1 = .ok (ex10St.db.rowsOf "T") ∧
    (findAll "T" {} ex10St).2.db = ex10St.db :=
  C10_empty_filter "T" ex10St (by decide)

/-! ## C8: field processing rules -/

theorem uuidUses_cons (td : TableDef) (f : String) (v : Value)
    (tl : List (String × Value)) :
    uuidUses td ((f, v) :: tl) =
      (if td.fields.lookup f == some "uuid" && !v.truthy then 1 else 0) +
        uuidUses td tl := by
  simp only [uuidUses, List.filter_cons]
  split <;> simp_all [Nat.add_comm]

theorem processFields_append (td : TableDef) (a b : List (String × Value))
    (fresh now : Nat) :
    processFields td (a ++ b) fresh now =
      processFields td a fresh now ++
        processFields td b (fresh + uuidUses td a) now := by
  induction a generalizing fresh with
  | nil => simp [processFields, uuidUses]
  | cons hd tl ih =>
    obtain ⟨f, v⟩ := hd
    rw [List.cons_append]
    simp only [processFields, uuidUses_cons]
    by_cases h1 : (td.fields.lookup f == some "uuid" && !v.truthy) = true
    · simp only [h1, if_true, List.cons_append, ih]
      have : fresh + (1 + uuidUses td tl) = fresh + 1 + uuidUses td tl := by omega
      rw [this]
    · simp only [h1, if_false, Bool.not_eq_true] at *
      simp only [h1, Bool.false_eq_true, if_false, Nat.zero_add]
      by_cases h2 : (td.fields.lookup f == some "serial") = true
      · simp [h2, ih]
      · by_cases h3 : (td.fields.lookup f == some "integer") = true
        · simp [h2, h3, ih]
        · by_cases h4 : (td.fields.lookup f == some "timestamp" && !v.truthy) = true
          · simp [h2, h3, h4, ih]
          · simp [h2, h3, h4, ih]

/-- Keys produced by field processing come from the input keys. -/
theorem processFields_keys_sub (td : TableDef) (data : List (String × Value))
    (fresh now : Nat) (g : String)
    (h : g ∈ (processFields td data fresh now).map Prod.fst) :
    g ∈ data.map Prod.fst := by
  induction data generalizing fresh with
  | nil => simp [processFields] at h
  | cons hd tl ih =>
    obtain ⟨f, v⟩ := hd
    simp only [processFields] at h
    by_cases h1 : (td.fields.lookup f == some "uuid" && !v.truthy) = true
    · rw [if_pos h1] at h
      simp only [List.map_cons, List.mem_cons] at h ⊢
      rcases h with h | h
      · exact Or.inl h
      · exact Or.inr (ih _ h)
    · rw [if_neg h1] at h
      by_cases h2 : (td.fields.lookup f == some "serial") = true
      · rw [if_pos h2] at h
        simp only [List.map_cons, List.mem_cons]
        exact Or.inr (ih _ h)
      · rw [if_neg h2] at h
        by_cases h3 : (td.fields.lookup f == some "integer") = true
        · rw [if_pos h3] at h
          simp only [List.map_cons, List.mem_cons] at h ⊢
          rcases h with h | h
          · exact Or.inl h
          · exact Or.inr (ih _ h)
        · rw [if_neg h3] at h
          by_cases h4 : (td.fields.lookup f == some "timestamp" && !v.truthy) = true
          · rw [if_pos h4] at h
            simp only [List.map_cons, List.mem_cons] at h ⊢
            rcases h with h | h
            · exact Or.inl h
            · exact Or.inr (ih _ h)
          · rw [if_neg h4] at h
            simp only [List.map_cons, List.mem_cons] at h ⊢
            rcases h with h | h
            · exact Or.inl h
            · exact Or.inr (ih _ h)

/-- C8: the type-tag-driven field-processing rules, stated for a field
occurring at an arbitrary position of the input.  A uuid-tagged field
with no supplied value receives a freshly generated identifier (the
opaque output of the uuid generator); a serial-tagged field is dropped
entirely; an integer-tagged field becomes `Number(value)`, or explicit
null when the value is undefined; a timestamp-tagged field with no
supplied value becomes the current instant; fields with any other tag
pass through unchanged.  `create` and `update` share this single
definition, so the processing is identical on both paths. -/
theorem C8_processFields_rules (td : TableDef) (pre post : List (String × Value))
    (f : String) (v : Value) (fresh now : Nat) :
    (td.fields.lookup f = some "uuid" → v = .vUndef →
      ∃ k, (f, .vUuid k) ∈ processFields td (pre ++ (f, v) :: post) fresh now) ∧
    (td.fields.lookup f = some "serial" → f ∉ pre.map Prod.fst →
      f ∉ post.map Prod.fst →
      ∀ w, (f, w) ∉ processFields td (pre ++ (f, v) :: post) fresh now) ∧
    (td.fields.lookup f = some "integer" →
      (f, if v = .vUndef then .vNull else jsNumber v) ∈
        processFields td (pre ++ (f, v) :: post) fresh now) ∧
    (td.fields.lookup f = some "timestamp" → v = .vUndef →
      (f, .vDate now) ∈ processFields td (pre ++ (f, v) :: post) fresh now) ∧
    ((∀ tag, td.fields.lookup f = some tag →
        tag ∉ (["uuid", "serial", "integer", "timestamp"] : List String)) →
      (f, v) ∈ processFields td (pre ++ (f, v) :: post) fresh now) := by
  rw [processFields_append]
  refine ⟨?_, ?_, ?_, ?_, ?_⟩
  · intro htag hv
    subst hv
    refine ⟨fresh + uuidUses td pre, ?_⟩
    simp [processFields, htag, Value.truthy]
  · intro htag hpre hpost w hmem
    rw [List.mem_append] at hmem
    rcases hmem with hmem | hmem
    · exact hpre (processFields_keys_sub td pre fresh now f
        (List.mem_map_of_mem Prod.fst hmem))
    · simp only [processFields, htag] at hmem
      simp only [beq_iff_eq, Option.some.injEq] at hmem
      norm_num at hmem
      exact hpost (processFields_keys_sub td post _ now f
        (List.mem_map_of_mem Prod.fst hmem))
  · intro htag
    rw [List.mem_append]
    right
    simp [processFields, htag]
  · intro htag hv
    subst hv
    rw [List.mem_append]
    right
    simp [processFields, htag, Value.truthy]
  · intro htag
    rw [List.mem_append]
    right
    cases hl : td.fields.lookup f with
    | none => simp [processFields, hl]
    | some tag =>
      have h1 : tag ≠ "uuid" := by
        intro h; exact (htag tag hl) (by simp [h])
      have h2 : tag ≠ "serial" := by
        intro h; exact (htag tag hl) (by simp [h])
      have h3 : tag ≠ "integer" := by
        intro h; exact (htag tag hl) (by simp [h])
      have h4 : tag ≠ "timestamp" := by
        intro h; exact (htag tag hl) (by simp [h])
      simp [processFields, hl, h1, h2, h3, h4]

def c8TD : TableDef :=
  { fields := [("u", "uuid"), ("s", "serial"), ("i", "integer"),
               ("t", "timestamp"), ("x", "varchar")] }

/-- C8 witness: concrete applications of the rules — a uuid field with
undefined value is freshly generated and a serial field is dropped. -/
theorem C8_processFields_rules_witness :
    (∃ k, ("u", Value.vUuid k) ∈
       processFields c8TD [("u", .vUndef), ("s", .vNum 9)] 5 77) ∧
    (∀ w, ("s", w) ∉ processFields c8TD [("u", .vUndef), ("s", .vNum 9)] 5 77) :=
  ⟨(C8_processFields_rules c8TD [] [("s", .vNum 9)] "u" .vUndef 5 77).1
      (by decide) rfl,
   (C8_processFields_rules c8TD [("u", .vUndef)] [] "s" (.vNum 9) 5 77).2.1
      (by decide) (by decide) (by decide)⟩

/-! ## C7: delete of a missing key vs update of a missing key -/

/-- C7: for an id matching no row, `delete(id)` returns the explicit
absence value without raising, while `update(id, data)` with valid
non-empty data raises the wrapped record-not-found error. -/
theorem C7_delete_vs_update_missing (σ : Schema) (table : String) (td : TableDef)
    (id : Int) (data : List (String × Value)) (st : ExecSt)
    (h1 : st.db.hasTable table = true)
    (h2 : selectRows st.db table [("id", .vNum id)] = [])
    (h3 : validatePartialData td data = .ok ())
    (h4 : processFields td data st.fresh st.now ≠ []) :
    (deleteById table id st).1 = .ok none ∧
    (update σ table td id data st).1 =
      .error (.wrap "update" (.recordNotFound id)) := by
  constructor
  · simp [deleteById, h1, h2]
  · simp [update, h3, h4, h1, h2]

def c7TD : TableDef :=
  { fields := [("id", "serial"), ("name", "varchar")], required := ["name"] }

def c7St : ExecSt := { db := [("T", [[("id", .vNum 1), ("name", .vStr "a")]])] }

/-- C7 witness: id 99 matches nothing in the one-row table. -/
theorem C7_delete_vs_update_missing_witness :
    (deleteById "T" 99 c7St).1 = .ok none ∧
    (update [] "T" c7TD 99 [("name", .vStr "z")] c7St).1 =
      .error (.wrap "update" (.recordNotFound 99)) :=
  C7_delete_vs_update_missing [] "T" c7TD 99 [("name", .vStr "z")] c7St
    (by decide) (by decide) rfl (by decide)

/-! ## C6: findById cache behavior -/

theorem update_now_frame (σ : Schema) (table : String) (td : TableDef) (id : Int)
    (data : List (String × Value)) (st : ExecSt)
    (hnr : data.lookup "relations" = none) :
    (update σ table td id data st).2.now = st.now := by
  simp only [update]
  split
  · rfl
  · simp only [hnr, Option.getD, Value.truthy]
    split
    · rfl
    · split
      · rfl
      · split
        · rfl
        · rfl

theorem deleteById_now_frame (table : String) (id : Int) (st : ExecSt) :
    (deleteById table id st).2.now = st.now := by
  simp only [deleteById]
  split
  · rfl
  · rfl

/-- C6: on a cache hit `findById` returns the cached record without
executing any statement or changing any state; on a miss it executes
the SELECT and caches the result only when a record was found; and
because no write ever touches the cache, a `findById` issued after an
`update` or a `delete` of the same id within the TTL still returns the
previously cached record. -/
theorem C6_cache_behavior :
    (∀ (table : String) (id : Int) (cache : Cache) (st : ExecSt) (r : Row),
       cacheGet cache (fidKey table id) st.now = some r →
       findById table id cache st = (.ok (some r), cache, st)) ∧
    (∀ (table : String) (id : Int) (cache : Cache) (st : ExecSt) (r : Row),
       cacheGet cache (fidKey table id) st.now = none →
       st.db.hasTable table = true →
       (selectRows st.db table [("id", .vNum id)]).head? = some r →
       findById table id cache st =
         (.ok (some r), cacheSet cache (fidKey table id) r st.now,
          poolExec st (.selectS table))) ∧
    (∀ (table : String) (id : Int) (cache : Cache) (st : ExecSt),
       cacheGet cache (fidKey table id) st.now = none →
       st.db.hasTable table = true →
       (selectRows st.db table [("id", .vNum id)]).head? = none →
       findById table id cache st = (.ok none, cache, poolExec st (.selectS table))) ∧
    (∀ (σ : Schema) (table : String) (td : TableDef) (id : Int)
       (data : List (String × Value)) (cache : Cache) (st : ExecSt) (r : Row),
       data.lookup "relations" = none →
       cacheGet cache (fidKey table id) st.now = some r →
       (findById table id cache (update σ table td id data st).2).1 = .ok (some r)) ∧
    (∀ (table : String) (id id2 : Int) (cache : Cache) (st : ExecSt) (r : Row),
       cacheGet cache (fidKey table id) st.now = some r →
       (findById table id cache (deleteById table id2 st).2).1 = .ok (some r)) := by
  refine ⟨?_, ?_, ?_, ?_, ?_⟩
  · intro table id cache st r h
    simp [findById, h]
  · intro table id cache st r h h1 h2
    simp [findById, h, h1, h2]
  · intro table id cache st h h1 h2
    simp [findById, h, h1, h2]
  · intro σ table td id data cache st r hnr h
    have hn := update_now_frame σ table td id data st hnr
    simp [findById, hn, h]
  · intro table id id2 cache st r h
    have hn := deleteById_now_frame table id2 st
    simp [findById, hn, h]

def c6Row : Row := [("id", .vNum 1), ("name", .vStr "old")]

def c6Cache : Cache := [(fidKey "T" 1, (c6Row, 0))]

def c6St : ExecSt := { db := [("T", [[("id", .vNum 1), ("name", .vStr "new")]])], now := 10 }

/-- C6 witness: hit without statement, and a stale read after an update
of the same id within the TTL. -/
theorem C6_cache_behavior_witness :
    findById "T" 1 c6Cache c6St = (.ok (some c6Row), c6Cache, c6St) ∧
    (findById "T" 1 c6Cache
        (update [] "T" c7TD 1 [("name", .vStr "upd")] c6St).2).1 = .ok (some c6Row) :=
  ⟨C6_cache_behavior.1 "T" 1 c6Cache c6St c6Row (by decide),
   C6_cache_behavior.2.2.2.1 [] "T" c7TD 1 [("name", .vStr "upd")] c6Cache c6St
     c6Row (by decide) (by decide)⟩

/-! ## C2: transactional rollback of create; C3: validation ordering -/

/-- Successful run of the create body up to the parent INSERT: the DDL
lands on the pool, the INSERT stays pending on the client. -/
theorem createBodyCore_facts (σ : Schema) (table : String) (td : TableDef)
    (data : List (String × Value)) (st : ExecSt)
    (hp : st.pending = [])
    (hchk : createTableCheck σ td = true)
    (hval : validateData td data = .ok ()) :
    ∃ row,
      createBodyCore σ table td data st =
        (.ok row,
         { st with
           db := applyStmt (.createTable table) st.db,
           trace := st.trace ++ [.createTable table, .insertS table row],
           pending := [.insertS table row],
           fresh := st.fresh + uuidUses td data }) := by
  refine ⟨completeRow td
      ((processFields td data st.fresh st.now).map (fun q => (q.1, pgParam q.2)))
      (((applyStmt (.createTable table) st.db).rowsOf table).length + 1), ?_⟩
  simp only [createBodyCore, createTableStep, hchk, if_true, hval]
  simp only [insertClientStep, poolExec, txView, hp, List.foldl_nil,
    hasTable_createTable_self, Bool.not_true, Bool.false_eq_true, if_false,
    clientExec, List.nil_append]
  simp

/-- C2: when relation resolution raises inside the `create` transaction
after the parent row has been inserted (here: the first relation name is
not declared), `withTransaction` rolls the unit of work back on the one
acquired connection and re-raises the wrapped error: the parent row is
absent — every table's rows equal the pre-call rows — and the
connection is released on this exit path (release count and acquire
count both advance by exactly one). -/
theorem C2_create_rollback (σ : Schema) (table : String) (td : TableDef)
    (data : List (String × Value)) (n : String) (p : RelPayload)
    (rest : List (String × RelPayload)) (st : ExecSt)
    (hchk : createTableCheck σ td = true)
    (hval : validateData td data = .ok ())
    (hrel : td.relations.lookup n = none) :
    (create σ table td data (some ((n, p) :: rest)) st).1 =
        .error (.wrap "create" (.relationNotFound n)) ∧
    (∀ u, (create σ table td data (some ((n, p) :: rest)) st).2.db.rowsOf u
        = st.db.rowsOf u) ∧
    (create σ table td data (some ((n, p) :: rest)) st).2.acquired
        = st.acquired + 1 ∧
    (create σ table td data (some ((n, p) :: rest)) st).2.released
        = st.released + 1 := by
  obtain ⟨row, hrow⟩ := createBodyCore_facts σ table td data
    { st with
      acquired := st.acquired + 1,
      pending := [],
      trace := st.trace ++ [Stmt.begin] } rfl hchk hval
  simp only [create, withTransaction, hrow, relLoopCreate, hrel]
  refine ⟨by trivial, ?_, by trivial, by trivial⟩
  intro u
  exact rowsOf_createTable st.db table u

def c2St : ExecSt := { db := [] }

/-- C2 witness: a create on the demo schema whose relation map names an
undeclared relation; the user row is rolled back and the connection
balance advances by one acquire and one release. -/
theorem C2_create_rollback_witness :
    (create demoSchema "User" userTD [("name", .vStr "ann")]
        (some [("bogus", .primP .vNull)]) c2St).1 =
      .error (.wrap "create" (.relationNotFound "bogus")) ∧
    (create demoSchema "User" userTD [("name", .vStr "ann")]
        (some [("bogus", .primP .vNull)]) c2St).2.db.rowsOf "User" =
      c2St.db.rowsOf "User" ∧
    (create demoSchema "User" userTD [("name", .vStr "ann")]
        (some [("bogus", .primP .vNull)]) c2St).2.acquired = c2St.acquired + 1 ∧
    (create demoSchema "User" userTD [("name", .vStr "ann")]
        (some [("bogus", .primP .vNull)]) c2St).2.released = c2St.released + 1 := by
  have h := C2_create_rollback demoSchema "User" userTD [("name", .vStr "ann")]
    "bogus" (.primP .vNull) [] c2St (by decide) rfl (by decide)
  exact ⟨h.1, h.2.1 "User", h.2.2.1, h.2.2.2⟩

/-- C3 counterexample: `create` with data missing the required field
runs the table-creation DDL (and the transaction BEGIN) before the
validation error is raised — the trace of executed statements contains
the CREATE TABLE against the claim that no statement of any kind runs
before validation rejects the input. -/
theorem C3_ddl_before_validation_counterexample :
    (create demoSchema "User" userTD [] none c2St).1 =
        .error (.wrap "create" (.validationMissing ["name"])) ∧
    Stmt.createTable "User" ∈ (create demoSchema "User" userTD [] none c2St).2.trace := by
  exact ⟨rfl, by decide⟩

/-- C3 (amended): the validation error is raised before any
data-modifying statement executes.  On `create`, the transaction BEGIN
and the CREATE TABLE IF NOT EXISTS DDL do execute before validation, but
nothing else — the full trace is BEGIN, the DDL, ROLLBACK.  On `update`
(non-transactional) no statement at all precedes the validation error,
and on `updateMany` only the BEGIN does. -/
theorem C3_validation_before_dml :
    (∀ (σ : Schema) (table : String) (td : TableDef)
       (data : List (String × Value))
       (rels : Option (List (String × RelPayload))) (st : ExecSt) (e : Err),
       createTableCheck σ td = true →
       validateData td data = .error e →
       (create σ table td data rels st).1 = .error (.wrap "create" e) ∧
       (create σ table td data rels st).2.trace =
         st.trace ++ [.begin, .createTable table, .rollback]) ∧
    (∀ (σ : Schema) (table : String) (td : TableDef) (id : Int)
       (data : List (String × Value)) (st : ExecSt) (e : Err),
       validatePartialData td data = .error e →
       update σ table td id data st = (.error (.wrap "update" e), st)) ∧
    (∀ (σ : Schema) (table : String) (td : TableDef)
       (whereC data : List (String × Value)) (st : ExecSt) (e : Err),
       validatePartialData td data = .error e →
       (updateMany σ table td whereC data st).1 = .error (.wrap "updateMany" e) ∧
       (updateMany σ table td whereC data st).2.trace =
         st.trace ++ [.begin, .rollback] ∧
       (updateMany σ table td whereC data st).2.db = st.db) := by
  refine ⟨?_, ?_, ?_⟩
  · intro σ table td data rels st e hchk hval
    simp only [create, withTransaction, createBodyCore, createTableStep, hchk,
      if_true, hval, poolExec]
    refine ⟨by simp, by simp⟩
  · intro σ table td id data st e hval
    simp only [update, hval]
  · intro σ table td whereC data st e hval
    simp only [updateMany, withTransaction, hval]
    refine ⟨by simp, by simp, by simp⟩

/-- C3 amended-theorem witness at concrete inputs. -/
theorem C3_validation_before_dml_witness :
    ((create demoSchema "User" userTD [] none c2St).1 =
        .error (.wrap "create" (.validationMissing ["name"])) ∧
     (create demoSchema "User" userTD [] none c2St).2.trace =
        c2St.trace ++ [.begin, .createTable "User", .rollback]) ∧
    update demoSchema "User" userTD 1 [("oops", .vNum 1)] c2St =
      (.error (.wrap "update" (.validationInvalid ["oops"])), c2St) ∧
    (updateMany demoSchema "User" userTD [("id", .vNum 1)] [("oops", .vNum 1)] c2St).1 =
      .error (.wrap "updateMany" (.validationInvalid ["oops"])) :=
  ⟨C3_validation_before_dml.1 demoSchema "User" userTD [] none c2St
      (.validationMissing ["name"]) (by decide) rfl,
   C3_validation_before_dml.2.1 demoSchema "User" userTD 1 [("oops", .vNum 1)]
      c2St (.validationInvalid ["oops"]) rfl,
   (C3_validation_before_dml.2.2 demoSchema "User" userTD [("id", .vNum 1)]
      [("oops", .vNum 1)] c2St (.validationInvalid ["oops"]) rfl).1⟩

/-! ## C4/C5: many-to-many reconciliation -/

/-- Related ids inserted into junction table `jt` by a statement list. -/
def junctionInsertsOf (stmts : List Stmt) (jt rk : String) : List Value :=
  stmts.filterMap (fun s => match s with
    | .insertS t row => if t = jt then some (row.getF rk) else none
    | _ => none)

/-- Related ids whose exact source-related pair is deleted from `jt`. -/
def junctionDeletesOf (stmts : List Stmt) (jt rk : String) : List Value :=
  stmts.filterMap (fun s => match s with
    | .deleteWhereS t conds => if t = jt then some ((conds.lookup rk).getD .vUndef) else none
    | _ => none)

/-- The statements a reconciliation run adds to the trace. -/
def m2mNewStmts (rel : Relation) (src : Value) (targets : List Value)
    (st : ExecSt) : List Stmt :=
  (updateManyToManyRelation rel src targets st).2.trace.drop st.trace.length

theorem pgParam_eq_self (v : Value) (h : v ≠ .vUndef) : pgParam v = v := by
  cases v <;> simp_all [pgParam]

theorem m2m_run_eq (rel : Relation) (jt rk : String) (src : Value)
    (targets : List Value) (st : ExecSt)
    (hjt : rel.junctionTable = some jt) (hjtne : jt ≠ "")
    (hrk : rel.relatedKey = some rk) (hrkne : rk ≠ "")
    (hhas : st.db.hasTable jt = true) :
    updateManyToManyRelation rel src targets st =
      (.ok (),
       (((junctionRelated st.db jt rel.foreignKey rk src).filter
           (fun id => !targets.contains id)).foldl
         (fun s id => poolExec s (.deleteWhereS jt [(rel.foreignKey, src), (rk, id)]))
         (((targets.filter
             (fun id => !(junctionRelated st.db jt rel.foreignKey rk src).contains id)).foldl
           (fun s id => poolExec s (.insertS jt [(rel.foreignKey, pgParam src), (rk, pgParam id)]))
           (poolExec st (.selectS jt)))))) := by
  simp only [updateManyToManyRelation, hjt, hrk, jsOptFalsy, jsStrTruthy,
    Option.getD]
  simp [hjtne, hrkne, hhas]

theorem junctionInsertsOf_insRows (jt fk rk : String) (src : Value)
    (ids : List Value) (hfk : fk ≠ rk) :
    junctionInsertsOf
      (ids.map (fun id => .insertS jt [(fk, pgParam src), (rk, pgParam id)])) jt rk
      = ids.map pgParam := by
  induction ids with
  | nil => rfl
  | cons hd tl ih =>
    have h2 : (rk == fk) = false := beq_eq_false_iff_ne.mpr (Ne.symm hfk)
    simpa [junctionInsertsOf, Row.getF, List.lookup, h2] using ih

theorem junctionInsertsOf_delRows (jt fk rk : String) (src : Value)
    (ids : List Value) :
    junctionInsertsOf
      (ids.map (fun id => Stmt.deleteWhereS jt [(fk, src), (rk, id)])) jt rk = [] := by
  induction ids with
  | nil => rfl
  | cons hd tl ih =>
    simp [junctionInsertsOf]

theorem junctionDeletesOf_delRows (jt fk rk : String) (src : Value)
    (ids : List Value) (hfk : fk ≠ rk) :
    junctionDeletesOf
      (ids.map (fun id => Stmt.deleteWhereS jt [(fk, src), (rk, id)])) jt rk = ids := by
  induction ids with
  | nil => rfl
  | cons hd tl ih =>
    have h2 : (rk == fk) = false := beq_eq_false_iff_ne.mpr (Ne.symm hfk)
    simpa [junctionDeletesOf, List.lookup, h2] using ih

theorem junctionDeletesOf_insRows (jt fk rk : String) (src : Value)
    (ids : List Value) :
    junctionDeletesOf
      (ids.map (fun id => Stmt.insertS jt [(fk, pgParam src), (rk, pgParam id)])) jt rk
      = [] := by
  induction ids with
  | nil => rfl
  | cons hd tl ih =>
    simp [junctionDeletesOf]

/-- The new trace of a reconciliation run: the SELECT of current ids,
one INSERT per toAdd member, one DELETE per toRemove member. -/
theorem m2mNewStmts_eq (rel : Relation) (jt rk : String) (src : Value)
    (targets : List Value) (st : ExecSt)
    (hjt : rel.junctionTable = some jt) (hjtne : jt ≠ "")
    (hrk : rel.relatedKey = some rk) (hrkne : rk ≠ "")
    (hhas : st.db.hasTable jt = true) :
    m2mNewStmts rel src targets st =
      Stmt.selectS jt ::
        ((targets.filter
            (fun id => !(junctionRelated st.db jt rel.foreignKey rk src).contains id)).map
          (fun id => .insertS jt [(rel.foreignKey, pgParam src), (rk, pgParam id)]) ++
         ((junctionRelated st.db jt rel.foreignKey rk src).filter
            (fun id => !targets.contains id)).map
           (fun id => .deleteWhereS jt [(rel.foreignKey, src), (rk, id)])) := by
  rw [m2mNewStmts, m2m_run_eq rel jt rk src targets st hjt hjtne hrk hrkne hhas]
  rw [foldl_poolExec_trace, foldl_poolExec_trace]
  simp only [poolExec, List.append_assoc, List.singleton_append]
  rw [List.drop_left st.trace]
  simp [List.cons_append]

/-- C4: the diff-based reconciler computes toAdd = target − current and
toRemove = current − target, performs exactly one junction INSERT per
toAdd member and exactly one junction DELETE (by exact source+related
pair) per toRemove member, and performs no junction operation at all on
ids lying in both sets. -/
theorem C4_m2m_diff (rel : Relation) (jt rk : String) (src : Value)
    (targets : List Value) (st : ExecSt)
    (hjt : rel.junctionTable = some jt) (hjtne : jt ≠ "")
    (hrk : rel.relatedKey = some rk) (hrkne : rk ≠ "")
    (hfk : rel.foreignKey ≠ rk)
    (hhas : st.db.hasTable jt = true)
    (hndT : targets.Nodup)
    (hvT : ∀ x ∈ targets, x ≠ Value.vUndef)
    (hndC : (junctionRelated st.db jt rel.foreignKey rk src).Nodup) :
    (updateManyToManyRelation rel src targets st).1 = .ok () ∧
    junctionInsertsOf (m2mNewStmts rel src targets st) jt rk =
      targets.filter
        (fun id => !(junctionRelated st.db jt rel.foreignKey rk src).contains id) ∧
    junctionDeletesOf (m2mNewStmts rel src targets st) jt rk =
      (junctionRelated st.db jt rel.foreignKey rk src).filter
        (fun id => !targets.contains id) ∧
    (∀ x, x ∈ targets → x ∉ junctionRelated st.db jt rel.foreignKey rk src →
      (junctionInsertsOf (m2mNewStmts rel src targets st) jt rk).count x = 1) ∧
    (∀ x, x ∈ junctionRelated st.db jt rel.foreignKey rk src → x ∉ targets →
      (junctionDeletesOf (m2mNewStmts rel src targets st) jt rk).count x = 1) ∧
    (∀ x, x ∈ junctionRelated st.db jt rel.foreignKey rk src → x ∈ targets →
      (junctionInsertsOf (m2mNewStmts rel src targets st) jt rk).count x = 0 ∧
      (junctionDeletesOf (m2mNewStmts rel src targets st) jt rk).count x = 0) := by
  have hrun := m2m_run_eq rel jt rk src targets st hjt hjtne hrk hrkne hhas
  have hstmts := m2mNewStmts_eq rel jt rk src targets st hjt hjtne hrk hrkne hhas
  set current := junctionRelated st.db jt rel.foreignKey rk src with hcur
  set toAdd := targets.filter (fun id => !current.contains id) with hta
  set toRemove := current.filter (fun id => !targets.contains id) with htr
  have hvA : ∀ x ∈ toAdd, x ≠ Value.vUndef := by
    intro x hx
    exact hvT x (List.mem_of_mem_filter hx)
  have hins : junctionInsertsOf (m2mNewStmts rel src targets st) jt rk = toAdd := by
    rw [hstmts]
    simp only [junctionInsertsOf, List.filterMap_cons, List.filterMap_append]
    rw [show (List.filterMap _ (toAdd.map
        (fun id => Stmt.insertS jt [(rel.foreignKey, pgParam src), (rk, pgParam id)]))) =
      junctionInsertsOf (toAdd.map
        (fun id => Stmt.insertS jt [(rel.foreignKey, pgParam src), (rk, pgParam id)])) jt rk
      from rfl]
    rw [show (List.filterMap _ (toRemove.map
        (fun id => Stmt.deleteWhereS jt [(rel.foreignKey, src), (rk, id)]))) =
      junctionInsertsOf (toRemove.map
        (fun id => Stmt.deleteWhereS jt [(rel.foreignKey, src), (rk, id)])) jt rk
      from rfl]
    rw [junctionInsertsOf_insRows jt rel.foreignKey rk src toAdd hfk,
        junctionInsertsOf_delRows jt rel.foreignKey rk src toRemove]
    rw [List.map_congr_left (fun x hx => pgParam_eq_self x (hvA x hx))]
    simp
  have hdel : junctionDeletesOf (m2mNewStmts rel src targets st) jt rk = toRemove := by
    rw [hstmts]
    simp only [junctionDeletesOf, List.filterMap_cons, List.filterMap_append]
    rw [show (List.filterMap _ (toAdd.map
        (fun id => Stmt.insertS jt [(rel.foreignKey, pgParam src), (rk, pgParam id)]))) =
      junctionDeletesOf (toAdd.map
        (fun id => Stmt.insertS jt [(rel.foreignKey, pgParam src), (rk, pgParam id)])) jt rk
      from rfl]
    rw [show (List.filterMap _ (toRemove.map
        (fun id => Stmt.deleteWhereS jt [(rel.foreignKey, src), (rk, id)]))) =
      junctionDeletesOf (toRemove.map
        (fun id => Stmt.deleteWhereS jt [(rel.foreignKey, src), (rk, id)])) jt rk
      from rfl]
    rw [junctionDeletesOf_insRows jt rel.foreignKey rk src toAdd,
        junctionDeletesOf_delRows jt rel.foreignKey rk src toRemove hfk]
    simp
  refine ⟨by rw [hrun], hins, hdel, ?_, ?_, ?_⟩
  · intro x hxT hxC
    rw [hins]
    have hmem : x ∈ toAdd := by
      rw [hta, List.mem_filter]
      refine ⟨hxT, ?_⟩
      simp only [Bool.not_eq_eq_eq_not, Bool.not_true, ← Bool.not_eq_true]
      intro hc
      exact hxC (by simpa [List.elem_iff] using hc)
    exact List.count_eq_one_of_mem (List.Nodup.filter _ hndT) hmem
  · intro x hxC hxT
    rw [hdel]
    have hmem : x ∈ toRemove := by
      rw [htr, List.mem_filter]
      refine ⟨hxC, ?_⟩
      simp only [Bool.not_eq_eq_eq_not, Bool.not_true, ← Bool.not_eq_true]
      intro hc
      exact hxT (by simpa [List.elem_iff] using hc)
    exact List.count_eq_one_of_mem (List.Nodup.filter _ hndC) hmem
  · intro x hxC hxT
    constructor
    · rw [hins, List.count_eq_zero]
      intro hmem
      rw [hta, List.mem_filter] at hmem
      have hx : x ∉ current := by simpa [List.elem_iff] using hmem.2
      exact hx hxC
    · rw [hdel, List.count_eq_zero]
      intro hmem
      rw [htr, List.mem_filter] at hmem
      have hx : x ∉ targets := by simpa [List.elem_iff] using hmem.2
      exact hx hxT

def c4Rel : Relation :=
  { type := .manyToMany, model := "Group", foreignKey := "uid",
    junctionTable := some "JT", relatedKey := some "gid" }

def c4St : ExecSt :=
  { db := [("JT",
      [[("uid", .vStr "S"), ("gid", .vStr "A")],
       [("uid", .vStr "S"), ("gid", .vStr "B")],
       [("uid", .vStr "S"), ("gid", .vStr "C")]])] }

/-- C4 witness: current = A,B,C and target = B,C,D — exactly one insert
(of D), exactly one delete (of A), and zero junction operations on B. -/
theorem C4_m2m_diff_witness :
    (junctionInsertsOf (m2mNewStmts c4Rel (.vStr "S")
        [.vStr "B", .vStr "C", .vStr "D"] c4St) "JT" "gid").count (.vStr "D") = 1 ∧
    (junctionDeletesOf (m2mNewStmts c4Rel (.vStr "S")
        [.vStr "B", .vStr "C", .vStr "D"] c4St) "JT" "gid").count (.vStr "A") = 1 ∧
    (junctionInsertsOf (m2mNewStmts c4Rel (.vStr "S")
        [.vStr "B", .vStr "C", .vStr "D"] c4St) "JT" "gid").count (.vStr "B") = 0 ∧
    (junctionDeletesOf (m2mNewStmts c4Rel (.vStr "S")
        [.vStr "B", .vStr "C", .vStr "D"] c4St) "JT" "gid").count (.vStr "B") = 0 := by
  have h := C4_m2m_diff c4Rel "JT" "gid" (.vStr "S")
    [.vStr "B", .vStr "C", .vStr "D"] c4St rfl (by decide) rfl (by decide)
    (by decide) (by decide) (by decide) (by decide) (by decide)
  exact ⟨h.2.2.2.1 (.vStr "D") (by decide) (by decide),
         h.2.2.2.2.1 (.vStr "A") (by decide) (by decide),
         (h.2.2.2.2.2 (.vStr "B") (by decide) (by decide)).1,
         (h.2.2.2.2.2 (.vStr "B") (by decide) (by decide)).2⟩

theorem sqlEq_self (x : Value) (h : x ≠ .vNull) : sqlEq x x = true := by
  have hb : (x == Value.vNull) = false := beq_eq_false_iff_ne.mpr h
  simp [sqlEq, bne, hb]

theorem sqlEq_eq {a b : Value} (h : sqlEq a b = true) : a = b := by
  simp only [sqlEq, Bool.and_eq_true, beq_iff_eq] at h
  exact h.2

theorem sqlEq_ne {a b : Value} (h : a ≠ b) : sqlEq a b = false := by
  have hb : (a == b) = false := beq_eq_false_iff_ne.mpr h
  simp [sqlEq, hb]

theorem rowMatches_one (r : Row) (a : String) (b : Value) :
    rowMatches r [(a, b)] = sqlEq (r.getF a) (pgParam b) := by
  simp [rowMatches]

theorem rowMatches_two (r : Row) (a : String) (b : Value) (c : String) (d : Value) :
    rowMatches r [(a, b), (c, d)] =
      (sqlEq (r.getF a) (pgParam b) && sqlEq (r.getF c) (pgParam d)) := by
  simp [rowMatches]

theorem getF_pair_fst (fk rk : String) (u v : Value) :
    Row.getF [(fk, u), (rk, v)] fk = u := by
  simp [Row.getF, List.lookup]

theorem getF_pair_snd (fk rk : String) (u v : Value) (h : fk ≠ rk) :
    Row.getF [(fk, u), (rk, v)] rk = v := by
  have h2 : (rk == fk) = false := beq_eq_false_iff_ne.mpr (Ne.symm h)
  simp [Row.getF, List.lookup, h2]

theorem foldl_delete_rowsOf (jt fk rk : String) (src : Value) (ids : List Value)
    (db : DB) :
    (ids.foldl (fun d id => applyStmt (.deleteWhereS jt [(fk, src), (rk, id)]) d)
        db).rowsOf jt
      = (db.rowsOf jt).filter
          (fun r => ids.all (fun id => !rowMatches r [(fk, src), (rk, id)])) := by
  induction ids generalizing db with
  | nil => simp
  | cons hd tl ih =>
    rw [List.foldl_cons, ih]
    simp only [applyStmt, rowsOf_setRows_self, List.filter_filter]
    apply List.filter_congr
    intro r hr
    simp [List.all_cons, Bool.and_comm]

theorem foldl_insert_rowsOf (jt : String) (mk : Value → Row) (ids : List Value)
    (db : DB) :
    (ids.foldl (fun d id => applyStmt (.insertS jt (mk id)) d) db).rowsOf jt
      = db.rowsOf jt ++ ids.map mk := by
  induction ids generalizing db with
  | nil => simp
  | cons hd tl ih =>
    rw [List.foldl_cons, ih]
    simp [applyStmt, rowsOf_setRows_self]

theorem foldl_applyStmt_hasTable {α : Type} (g : α → Stmt) (ids : List α)
    (db : DB) (t : String) (h : db.hasTable t = true) :
    (ids.foldl (fun d a => applyStmt (g a) d) db).hasTable t = true := by
  induction ids generalizing db with
  | nil => exact h
  | cons hd tl ih => exact ih _ (hasTable_applyStmt_mono _ _ _ h)

/-- Junction rows after a reconciliation run: the inserted rows appended,
then every exact pair named by toRemove filtered out. -/
theorem m2m_post_rowsOf (rel : Relation) (jt rk : String) (src : Value)
    (targets : List Value) (st : ExecSt)
    (hjt : rel.junctionTable = some jt) (hjtne : jt ≠ "")
    (hrk : rel.relatedKey = some rk) (hrkne : rk ≠ "")
    (hhas : st.db.hasTable jt = true) :
    (updateManyToManyRelation rel src targets st).2.db.rowsOf jt =
      ((st.db.rowsOf jt ++
        ((targets.filter
            (fun id => !(junctionRelated st.db jt rel.foreignKey rk src).contains id)).map
          (fun y => [(rel.foreignKey, pgParam src), (rk, pgParam y)]))).filter
        (fun r => ((junctionRelated st.db jt rel.foreignKey rk src).filter
            (fun id => !targets.contains id)).all
          (fun i => !rowMatches r [(rel.foreignKey, src), (rk, i)]))) := by
  rw [m2m_run_eq rel jt rk src targets st hjt hjtne hrk hrkne hhas]
  simp only [foldl_poolExec_db]
  rw [foldl_delete_rowsOf, foldl_insert_rowsOf]
  simp [poolExec, applyStmt]

theorem m2m_post_hasTable (rel : Relation) (jt rk : String) (src : Value)
    (targets : List Value) (st : ExecSt)
    (hjt : rel.junctionTable = some jt) (hjtne : jt ≠ "")
    (hrk : rel.relatedKey = some rk) (hrkne : rk ≠ "")
    (hhas : st.db.hasTable jt = true) :
    (updateManyToManyRelation rel src targets st).2.db.hasTable jt = true := by
  rw [m2m_run_eq rel jt rk src targets st hjt hjtne hrk hrkne hhas]
  simp only [foldl_poolExec_db]
  apply foldl_applyStmt_hasTable
  apply foldl_applyStmt_hasTable
  simpa [poolExec, applyStmt] using hhas

/-- The related ids for the source after a reconciliation run: exactly
the members of the current set also in the target list, followed by the
targets that were missing — converged onto the target set. -/
theorem m2m_post_related (rel : Relation) (jt rk : String) (src : Value)
    (targets : List Value) (st : ExecSt)
    (hjt : rel.junctionTable = some jt) (hjtne : jt ≠ "")
    (hrk : rel.relatedKey = some rk) (hrkne : rk ≠ "")
    (hfk : rel.foreignKey ≠ rk)
    (hhas : st.db.hasTable jt = true)
    (hsrcU : src ≠ Value.vUndef) (hsrcN : src ≠ Value.vNull)
    (hvT : ∀ x ∈ targets, x ≠ Value.vUndef ∧ x ≠ Value.vNull)
    (hvC : ∀ x ∈ junctionRelated st.db jt rel.foreignKey rk src,
             x ≠ Value.vUndef ∧ x ≠ Value.vNull) :
    junctionRelated (updateManyToManyRelation rel src targets st).2.db
        jt rel.foreignKey rk src
      = (junctionRelated st.db jt rel.foreignKey rk src).filter
          (fun v => targets.contains v) ++
        targets.filter
          (fun id => !(junctionRelated st.db jt rel.foreignKey rk src).contains id) := by
  have hpost := m2m_post_rowsOf rel jt rk src targets st hjt hjtne hrk hrkne hhas
  set fk := rel.foreignKey with hfkdef
  set current := junctionRelated st.db jt fk rk src with hcur
  set toAdd := targets.filter (fun id => !current.contains id) with hta
  set toRemove := current.filter (fun id => !targets.contains id) with htr
  have hkeep : ∀ r, rowMatches r [(fk, src)] = true → r.getF rk ∈ current →
      (toRemove.all (fun i => !rowMatches r [(fk, src), (rk, i)]))
        = targets.contains (r.getF rk) := by
    intro r hsrc hmem
    have hv := hvC _ hmem
    cases hvt : targets.contains (r.getF rk) with
    | true =>
      rw [List.all_eq_true]
      intro i hi
      have hiC : i ∈ current := List.mem_of_mem_filter hi
      have hiT : i ∉ targets := by
        have := (List.mem_filter.mp hi).2
        simpa [List.elem_iff] using this
      have hne : r.getF rk ≠ i := by
        intro heq
        rw [heq] at hvt
        exact hiT (by simpa [List.elem_iff] using hvt)
      rw [rowMatches_two, pgParam_eq_self i (hvC i hiC).1, sqlEq_ne hne]
      simp
    | false =>
      have hmemR : r.getF rk ∈ toRemove := by
        rw [htr, List.mem_filter]
        exact ⟨hmem, by simpa [List.elem_iff] using hvt⟩
      cases hall : toRemove.all (fun i => !rowMatches r [(fk, src), (rk, i)]) with
      | false => rfl
      | true =>
        exfalso
        have := List.all_eq_true.mp hall _ hmemR
        rw [rowMatches_two, pgParam_eq_self _ hv.1, sqlEq_self _ hv.2] at this
        rw [rowMatches_one] at hsrc
        simp [hsrc] at this
  simp only [junctionRelated, selectRows, hpost]
  rw [List.filter_filter, List.filter_append, List.map_append]
  have hrows_eq : List.filter
        (fun r => rowMatches r [(fk, src)] &&
          toRemove.all (fun i => !rowMatches r [(fk, src), (rk, i)]))
        (st.db.rowsOf jt)
      = List.filter
          (fun r => rowMatches r [(fk, src)] && targets.contains (r.getF rk))
          (st.db.rowsOf jt) := by
    apply List.filter_congr
    intro r hr
    cases hsrc : rowMatches r [(fk, src)] with
    | false => simp
    | true =>
      simp only [Bool.true_and]
      apply hkeep r hsrc
      rw [hcur, junctionRelated, selectRows]
      exact List.mem_map_of_mem _ (List.mem_filter.mpr ⟨hr, hsrc⟩)
  have hcur_filter : current.filter (fun v => targets.contains v)
      = (List.filter
          (fun r => rowMatches r [(fk, src)] && targets.contains (r.getF rk))
          (st.db.rowsOf jt)).map (fun r => r.getF rk) := by
    rw [hcur, junctionRelated, selectRows, List.filter_map, List.filter_filter]
    congr 1
    apply List.filter_congr
    intro r hr
    simp [Function.comp, Bool.and_comm]
  have hadds_keep : List.filter
        (fun r => rowMatches r [(fk, src)] &&
          toRemove.all (fun i => !rowMatches r [(fk, src), (rk, i)]))
        (toAdd.map (fun y => [(fk, pgParam src), (rk, pgParam y)]))
      = toAdd.map (fun y => [(fk, pgParam src), (rk, pgParam y)]) := by
    rw [List.filter_eq_self]
    intro row hrow
    obtain ⟨y, hy, hyeq⟩ := List.mem_map.mp hrow
    subst hyeq
    have hyT : y ∈ targets := List.mem_of_mem_filter hy
    have hyv := hvT y hyT
    have hsrcM : rowMatches [(fk, pgParam src), (rk, pgParam y)] [(fk, src)] = true := by
      rw [rowMatches_one, getF_pair_fst, pgParam_eq_self src hsrcU]
      exact sqlEq_self src hsrcN
    rw [hsrcM, Bool.true_and, List.all_eq_true]
    intro i hi
    have hiC : i ∈ current := List.mem_of_mem_filter hi
    have hiT : i ∉ targets := by
      have := (List.mem_filter.mp hi).2
      simpa [List.elem_iff] using this
    have hne : pgParam y ≠ i := by
      rw [pgParam_eq_self y hyv.1]
      intro heq
      exact hiT (heq ▸ hyT)
    rw [rowMatches_two, getF_pair_snd fk rk _ _ hfk,
      pgParam_eq_self i (hvC i hiC).1, sqlEq_ne hne]
    simp
  have hadds_map : (toAdd.map
        (fun y => [(fk, pgParam src), (rk, pgParam y)])).map (fun r => Row.getF r rk)
      = toAdd := by
    rw [List.map_map]
    have hpt : ∀ y ∈ toAdd,
        ((fun r => Row.getF r rk) ∘ (fun y => [(fk, pgParam src), (rk, pgParam y)])) y
          = id y := by
      intro y hy
      have hyv := hvT y (List.mem_of_mem_filter hy)
      simp [Function.comp, getF_pair_snd fk rk _ _ hfk, pgParam_eq_self y hyv.1]
    rw [List.map_congr_left hpt, List.map_id]
  rw [hrows_eq, hadds_keep, hadds_map, ← hcur_filter]

/-- C5 counterexample: with a junction table already holding a duplicate
pair for the source, reconciling to the target set containing that id
performs no operation and leaves both duplicate rows, so the table does
not hold exactly one row per target member — the claim fails for such
a current state. -/
def dupRel : Relation :=
  { type := .manyToMany, model := "G", foreignKey := "uid",
    junctionTable := some "J", relatedKey := some "gid" }

def dupSt : ExecSt :=
  { db := [("J", [[("uid", .vNum 1), ("gid", .vNum 2)],
                  [("uid", .vNum 1), ("gid", .vNum 2)]])] }

theorem C5_duplicate_rows_counterexample :
    (updateManyToManyRelation dupRel (.vNum 1) [.vNum 2] dupSt).1 = .ok () ∧
    ¬ ((junctionRelated (updateManyToManyRelation dupRel (.vNum 1)
          [.vNum 2] dupSt).2.db "J" "uid" "gid" (.vNum 1)).count (.vNum 2) = 1) := by
  exact ⟨rfl, by decide⟩

/-- C5 (amended): provided the junction table's current related ids for
the source are duplicate-free and ids are non-null, reconciliation is
convergent and idempotent: afterwards the junction table holds exactly
one row per target-set member for the source and no others, and a second
reconciliation to the same target set performs no junction insert or
delete and leaves the database state identical. -/
theorem C5_m2m_convergent_idempotent (rel : Relation) (jt rk : String)
    (src : Value) (targets : List Value) (st : ExecSt)
    (hjt : rel.junctionTable = some jt) (hjtne : jt ≠ "")
    (hrk : rel.relatedKey = some rk) (hrkne : rk ≠ "")
    (hfk : rel.foreignKey ≠ rk)
    (hhas : st.db.hasTable jt = true)
    (hndT : targets.Nodup)
    (hsrcU : src ≠ Value.vUndef) (hsrcN : src ≠ Value.vNull)
    (hvT : ∀ x ∈ targets, x ≠ Value.vUndef ∧ x ≠ Value.vNull)
    (hndC : (junctionRelated st.db jt rel.foreignKey rk src).Nodup)
    (hvC : ∀ x ∈ junctionRelated st.db jt rel.foreignKey rk src,
             x ≠ Value.vUndef ∧ x ≠ Value.vNull) :
    (∀ x, (junctionRelated (updateManyToManyRelation rel src targets st).2.db
        jt rel.foreignKey rk src).count x = if x ∈ targets then 1 else 0) ∧
    (updateManyToManyRelation rel src targets
        (updateManyToManyRelation rel src targets st).2).2.db =
      (updateManyToManyRelation rel src targets st).2.db ∧
    junctionInsertsOf (m2mNewStmts rel src targets
        (updateManyToManyRelation rel src targets st).2) jt rk = [] ∧
    junctionDeletesOf (m2mNewStmts rel src targets
        (updateManyToManyRelation rel src targets st).2) jt rk = [] := by
  have hrelated := m2m_post_related rel jt rk src targets st hjt hjtne hrk hrkne
    hfk hhas hsrcU hsrcN hvT hvC
  set current := junctionRelated st.db jt rel.foreignKey rk src with hcur
  have hcnt : ∀ x, (junctionRelated (updateManyToManyRelation rel src targets st).2.db
      jt rel.foreignKey rk src).count x = if x ∈ targets then 1 else 0 := by
    intro x
    rw [hrelated, List.count_append]
    by_cases hxT : x ∈ targets
    · rw [if_pos hxT]
      by_cases hxC : x ∈ current
      · have h1 : (current.filter (fun v => targets.contains v)).count x = 1 :=
          List.count_eq_one_of_mem (List.Nodup.filter _ hndC)
            (List.mem_filter.mpr ⟨hxC, by simpa [List.elem_iff] using hxT⟩)
        have h2 : (targets.filter (fun id => !current.contains id)).count x = 0 := by
          rw [List.count_eq_zero]
          intro hmem
          have h3 := (List.mem_filter.mp hmem).2
          have h4 : x ∉ current := by simpa [List.elem_iff] using h3
          exact h4 hxC
        rw [h1, h2]
      · have h1 : (current.filter (fun v => targets.contains v)).count x = 0 := by
          rw [List.count_eq_zero]
          intro hmem
          exact hxC (List.mem_of_mem_filter hmem)
        have h2 : (targets.filter (fun id => !current.contains id)).count x = 1 :=
          List.count_eq_one_of_mem (List.Nodup.filter _ hndT)
            (List.mem_filter.mpr ⟨hxT, by simpa [List.elem_iff] using hxC⟩)
        rw [h1, h2]
    · rw [if_neg hxT]
      have h1 : (current.filter (fun v => targets.contains v)).count x = 0 := by
        rw [List.count_eq_zero]
        intro hmem
        have h3 := (List.mem_filter.mp hmem).2
        exact hxT (by simpa [List.elem_iff] using h3)
      have h2 : (targets.filter (fun id => !current.contains id)).count x = 0 := by
        rw [List.count_eq_zero]
        intro hmem
        exact hxT (List.mem_of_mem_filter hmem)
      rw [h1, h2]
  have hmempost : ∀ x,
      x ∈ junctionRelated (updateManyToManyRelation rel src targets st).2.db
        jt rel.foreignKey rk src ↔ x ∈ targets := by
    intro x
    constructor
    · intro hx
      rw [hrelated, List.mem_append] at hx
      rcases hx with hx | hx
      · have h3 := (List.mem_filter.mp hx).2
        simpa [List.elem_iff] using h3
      · exact List.mem_of_mem_filter hx
    · intro hx
      have hc := hcnt x
      rw [if_pos hx] at hc
      exact List.count_pos_iff.mp (by omega)
  have hhas1 : (updateManyToManyRelation rel src targets st).2.db.hasTable jt = true :=
    m2m_post_hasTable rel jt rk src targets st hjt hjtne hrk hrkne hhas
  have hta2 : targets.filter
      (fun id => !(junctionRelated (updateManyToManyRelation rel src targets st).2.db
        jt rel.foreignKey rk src).contains id) = [] := by
    rw [List.filter_eq_nil_iff]
    intro a ha
    simp [List.elem_iff, (hmempost a).mpr ha]
  have htr2 : (junctionRelated (updateManyToManyRelation rel src targets st).2.db
      jt rel.foreignKey rk src).filter (fun id => !targets.contains id) = [] := by
    rw [List.filter_eq_nil_iff]
    intro a ha
    simp [List.elem_iff, (hmempost a).mp ha]
  have hrun2 := m2m_run_eq rel jt rk src targets
    (updateManyToManyRelation rel src targets st).2 hjt hjtne hrk hrkne hhas1
  have hstmts2 := m2mNewStmts_eq rel jt rk src targets
    (updateManyToManyRelation rel src targets st).2 hjt hjtne hrk hrkne hhas1
  refine ⟨hcnt, ?_, ?_, ?_⟩
  · rw [hrun2, hta2, htr2]
    simp [poolExec, applyStmt]
  · rw [hstmts2, hta2, htr2]
    simp [junctionInsertsOf]
  · rw [hstmts2, hta2, htr2]
    simp [junctionDeletesOf]

/-- C5 witness: the amended reconciliation on the A,B,C to B,C,D
instance converges — afterwards D appears exactly once and A zero
times — and a second identical reconciliation performs no junction
insert or delete and leaves the database unchanged. -/
theorem C5_m2m_witness :
    ((junctionRelated (updateManyToManyRelation c4Rel (.vStr "S")
        [.vStr "B", .vStr "C", .vStr "D"] c4St).2.db "JT" "uid" "gid"
        (.vStr "S")).count (.vStr "D") = 1) ∧
    ((junctionRelated (updateManyToManyRelation c4Rel (.vStr "S")
        [.vStr "B", .vStr "C", .vStr "D"] c4St).2.db "JT" "uid" "gid"
        (.vStr "S")).count (.vStr "A") = 0) ∧
    (updateManyToManyRelation c4Rel (.vStr "S") [.vStr "B", .vStr "C", .vStr "D"]
        (updateManyToManyRelation c4Rel (.vStr "S")
          [.vStr "B", .vStr "C", .vStr "D"] c4St).2).2.db =
      (updateManyToManyRelation c4Rel (.vStr "S")
        [.vStr "B", .vStr "C", .vStr "D"] c4St).2.db ∧
    junctionInsertsOf (m2mNewStmts c4Rel (.vStr "S") [.vStr "B", .vStr "C", .vStr "D"]
        (updateManyToManyRelation c4Rel (.vStr "S")
          [.vStr "B", .vStr "C", .vStr "D"] c4St).2) "JT" "gid" = [] := by
  have h := C5_m2m_convergent_idempotent c4Rel "JT" "gid" (.vStr "S")
    [.vStr "B", .vStr "C", .vStr "D"] c4St rfl (by decide) rfl (by decide)
    (by decide) (by decide) (by decide) (by decide) (by decide) (by decide)
    (by decide) (by decide)
  refine ⟨?_, ?_, h.2.1, h.2.2.1⟩
  · have h1 := h.1 (.vStr "D")
    simpa using h1
  · have h1 := h.1 (.vStr "A")
    simpa using h1

/-! ## C9: the updateMany relation cascade, under row-locking semantics

The cascade statements of `updateMany` run on the shared pool while the
updateMany transaction itself is still open on the checked-out client.
The base `UPDATE ... RETURNING id` has row-locked every matched row; a
pool write targeting such a row must wait for the transaction to end,
and since updateMany awaits that pool statement before it can ever
COMMIT, the wait never ends.  The definitions below refine the
`updateMany` model with this transport behavior, which decides the
belongsTo branch of the cascade. -/

/-- Committed rows of `t` written by a pending statement of the open
transaction: the transaction holds row locks on them until it ends. -/
def rowLocked (pending : List Stmt) (t : String) (r : Row) : Bool :=
  pending.any (fun s => match s with
    | .updateByIdS t2 _ idv => (t2 == t) && sqlEq (r.getF "id") (pgParam idv)
    | .updateWhereS t2 _ conds => (t2 == t) && rowMatches r conds
    | .deleteByIdS t2 idv => (t2 == t) && sqlEq (r.getF "id") (pgParam idv)
    | .deleteWhereS t2 conds => (t2 == t) && rowMatches r conds
    | _ => false)

/-- Whether a pool statement must wait for a row lock of the open
transaction before it can apply: a write whose committed target rows
include a locked row.  Plain reads and inserts do not conflict. -/
def poolBlocks (pending : List Stmt) (db : DB) : Stmt → Bool
  | .updateByIdS t _ idv =>
    (db.rowsOf t).any (fun r => sqlEq (r.getF "id") (pgParam idv) && rowLocked pending t r)
  | .updateWhereS t _ conds =>
    (db.rowsOf t).any (fun r => rowMatches r conds && rowLocked pending t r)
  | .deleteByIdS t idv =>
    (db.rowsOf t).any (fun r => sqlEq (r.getF "id") (pgParam idv) && rowLocked pending t r)
  | .deleteWhereS t conds =>
    (db.rowsOf t).any (fun r => rowMatches r conds && rowLocked pending t r)
  | _ => false

/-- Result of a cascade step under row-locking semantics: completion,
an error, or an indefinite block on a statement (the awaiting caller
holds open the very transaction the statement waits for). -/
inductive CascadeRes where
  | okC : ExecSt → CascadeRes
  | errC : Err → ExecSt → CascadeRes
  | blockedC : Stmt → ExecSt → CascadeRes

/-- `updateRelation` with a bare value payload under row-locking
semantics: as `updateRelationStep`, except that the belongsTo
foreign-key UPDATE — issued on the pool while the updateMany
transaction is open — blocks when a committed row it targets is
locked by that transaction. -/
def updateRelationStepLk (σ : Schema) (table : String) (rel : Relation)
    (parentId : Value) (payload : Value) (conn : Conn) (st : ExecSt) : CascadeRes :=
  match rel.type with
  | .hasMany | .hasOne =>
    match σ.lookup rel.model with
    | none => .errC .jsTypeError st
    | some rtd =>
      match createNoRel σ rel.model rtd
          (Row.setF (spreadValue payload) rel.foreignKey parentId) conn st with
      | (.ok _, st1) => .okC st1
      | (.error e, st1) => .errC e st1
  | .belongsTo =>
    let s := Stmt.updateByIdS table [(rel.foreignKey, pgParam payload)] parentId
    if poolBlocks st.pending st.db s then .blockedC s st
    else .okC (poolExec st s)
  | .manyToMany =>
    match m2mValuePayload rel parentId payload st with
    | (.ok _, st1) => .okC st1
    | (.error e, st1) => .errC e st1

def relLoopUMRelsLk (σ : Schema) (table : String) (data : List (String × Value))
    (id : Value) : List (String × Relation) → ExecSt → CascadeRes
  | [], st => .okC st
  | (name, rel) :: rest, st =>
    match updateRelationStepLk σ table rel id ((data.lookup name).getD .vUndef)
        .client st with
    | .okC st1 => relLoopUMRelsLk σ table data id rest st1
    | .errC e st1 => .errC e st1
    | .blockedC s st1 => .blockedC s st1

def relLoopUMLk (σ : Schema) (table : String) (td : TableDef)
    (data : List (String × Value)) : List Value → ExecSt → CascadeRes
  | [], st => .okC st
  | id :: ids, st =>
    match relLoopUMRelsLk σ table data id td.relations st with
    | .okC st1 => relLoopUMLk σ table td data ids st1
    | .errC e st1 => .errC e st1
    | .blockedC s st1 => .blockedC s st1

/-- Outcome of a call under row-locking semantics: the call returns, or
it blocks forever on a statement — the transaction then never commits
and the connection is never released. -/
inductive LockedOutcome where
  | returnsL : Except Err Int → ExecSt → LockedOutcome
  | blockedL : Stmt → ExecSt → LockedOutcome

def LockedOutcome.isBlocked : LockedOutcome → Bool
  | .blockedL _ _ => true
  | .returnsL _ _ => false

def LockedOutcome.blockedStmt : LockedOutcome → Option Stmt
  | .blockedL s _ => some s
  | .returnsL _ _ => none

def LockedOutcome.stateOf : LockedOutcome → ExecSt
  | .returnsL _ st => st
  | .blockedL _ st => st

def LockedOutcome.result : LockedOutcome → Option (Except Err Int)
  | .returnsL r _ => some r
  | .blockedL _ _ => none

/-- `updateMany` under the transport row-locking semantics: identical
to `updateMany` up to the relation cascade, but a cascade statement
that blocks makes the whole call hang — no COMMIT, no ROLLBACK, no
release. -/
def updateManyLk (σ : Schema) (table : String) (td : TableDef)
    (whereC data : List (String × Value)) (st : ExecSt) : LockedOutcome :=
  let st0 := { st with
    acquired := st.acquired + 1,
    pending := [],
    trace := st.trace ++ [Stmt.begin] }
  let commitL : Int → ExecSt → LockedOutcome := fun a st2 =>
    .returnsL (.ok a) { st2 with
      db := txView st2,
      pending := st.pending,
      trace := st2.trace ++ [Stmt.commit],
      released := st2.released + 1 }
  let rollbackL : Err → ExecSt → LockedOutcome := fun e st2 =>
    .returnsL (.error e) { st2 with
      pending := st.pending,
      trace := st2.trace ++ [Stmt.rollback],
      released := st2.released + 1 }
  match validatePartialData td data with
  | .error e => rollbackL (.wrap "updateMany" e) st0
  | .ok _ =>
    let processed := processFields td data st0.fresh st0.now
    let st1 := { st0 with fresh := st0.fresh + uuidUses td data }
    if processed = [] ∨ whereC = [] then rollbackL (.wrap "updateMany" .sqlSyntax) st1
    else if !(txView st1).hasTable table then
      rollbackL (.wrap "updateMany" .execFail) st1
    else
      let setsP := processed.map (fun p => (p.1, pgParam p.2))
      let matched := ((txView st1).rowsOf table).filter (fun r => rowMatches r whereC)
      let ids := matched.map (fun r => (applySets r setsP).getF "id")
      let st2 := clientExec st1 (.updateWhereS table setsP whereC)
      match relLoopUMLk σ table td data ids st2 with
      | .okC st3 => commitL (ids.length : Int) st3
      | .errC e st3 => rollbackL (.wrap "updateMany" e) st3
      | .blockedC s st3 => .blockedL s st3

theorem pgParam_vUndef : pgParam .vUndef = .vNull := rfl

theorem getF_setF_ne (r : Row) (g f : String) (w : Value) (h : f ≠ g) :
    (Row.setF r g w).getF f = r.getF f := by
  induction r with
  | nil =>
    have hb : (f == g) = false := beq_eq_false_iff_ne.mpr h
    simp [Row.setF, Row.getF, List.lookup, hb]
  | cons hd tl ih =>
    obtain ⟨k, v⟩ := hd
    by_cases hk : k = g
    · subst hk
      have hb : (f == k) = false := beq_eq_false_iff_ne.mpr h
      simp [Row.setF, Row.getF, List.lookup, hb]
    · by_cases hfk : f = k
      · subst hfk
        simp [Row.setF, hk, Row.getF, List.lookup]
      · have hb : (f == k) = false := beq_eq_false_iff_ne.mpr hfk
        simpa [Row.setF, hk, Row.getF, List.lookup, hb] using ih

theorem applySets_getF_not_mem (r : Row) (sets : List (String × Value))
    (f : String) (h : f ∉ sets.map Prod.fst) :
    (applySets r sets).getF f = r.getF f := by
  induction sets generalizing r with
  | nil => rfl
  | cons hd tl ih =>
    obtain ⟨g, w⟩ := hd
    simp only [List.map_cons, List.mem_cons] at h
    push_neg at h
    simp only [applySets, List.foldl_cons]
    rw [show (List.foldl (fun acc fv => Row.setF acc fv.1 fv.2)
        (Row.setF r g w) tl) = applySets (Row.setF r g w) tl from rfl]
    rw [ih _ h.2, getF_setF_ne r g f w h.1]

def c9StA : ExecSt :=
  { db := [("Pet", [[("id", .vNum 1), ("name", .vStr "rex"), ("ownerId", .vNum 5)]])] }

def c9StB : ExecSt := { db := [("User", [[("id", .vNum 1), ("name", .vStr "ann")]])] }

def c9StC : ExecSt :=
  { db := [("Member", [[("id", .vNum 1), ("name", .vStr "m")]]), ("MemberGroup", [])] }

/-- C9 counterexample: on the Pet table (one declared belongsTo
relation), an updateMany matching one row does not set the matched
row's foreign-key column to null and does not complete: the cascade's
NULL foreign-key UPDATE runs on a separate pool connection against the
row still locked by updateMany's own uncommitted base UPDATE, so the
call blocks forever on that statement, and the committed row keeps its
original ownerId — refuting the claimed belongsTo behavior. -/
theorem C9_belongsTo_blocks_counterexample :
    (updateManyLk demoSchema "Pet" petTD [("name", .vStr "rex")]
        [("name", .vStr "rexy")] c9StA).isBlocked = true ∧
    (updateManyLk demoSchema "Pet" petTD [("name", .vStr "rex")]
        [("name", .vStr "rexy")] c9StA).blockedStmt =
      some (.updateByIdS "Pet" [("ownerId", .vNull)] (.vNum 1)) ∧
    ((updateManyLk demoSchema "Pet" petTD [("name", .vStr "rex")]
        [("name", .vStr "rexy")] c9StA).stateOf.db.rowsOf "Pet").map
      (fun r => Row.getF r "ownerId") = [.vNum 5] := by
  refine ⟨by decide, by decide, by decide⟩

/-- C9 (amended): for a table declaring at least one relation,
`updateMany` matching at least one row runs the relation cascade over
the declared relations in order for each affected id, with payload
`data[relationName]` — undefined whenever data has no field of that
name — rather than only relations the caller supplied.  The outcome is
decided by the first declared relation: for belongsTo, the cascade
issues the NULL foreign-key UPDATE on the pool, but it targets the row
locked by the still-open updateMany transaction, so the call blocks
forever — it never commits and no foreign key is observably set; for
hasMany/hasOne the nested create cannot reuse the checked-out client,
and for manyToMany the undefined payload is not iterable after the
junction SELECT — in both cases the error rolls back the entire
updateMany transaction, leaving the database unchanged. -/
theorem C9_updateMany_relations :
    (∀ (σ : Schema) (table : String) (td : TableDef)
       (whereC data : List (String × Value)) (st : ExecSt)
       (n : String) (r : Relation) (rest : List (String × Relation))
       (r0 : Row) (ms : List Row),
       validatePartialData td data = .ok () →
       processFields td data st.fresh st.now ≠ [] →
       whereC ≠ [] →
       st.db.hasTable table = true →
       td.relations = (n, r) :: rest →
       r.type = RelType.belongsTo →
       data.lookup n = none →
       (st.db.rowsOf table).filter (fun q => rowMatches q whereC) = r0 :: ms →
       "id" ∉ (processFields td data st.fresh st.now).map Prod.fst →
       r0.getF "id" ≠ Value.vUndef →
       r0.getF "id" ≠ Value.vNull →
       (updateManyLk σ table td whereC data st).isBlocked = true ∧
       (updateManyLk σ table td whereC data st).blockedStmt =
         some (.updateByIdS table [(r.foreignKey, .vNull)] (r0.getF "id")) ∧
       (updateManyLk σ table td whereC data st).stateOf.db = st.db) ∧
    (∀ (σ : Schema) (table : String) (td : TableDef)
       (whereC data : List (String × Value)) (st : ExecSt)
       (n : String) (r : Relation) (rest : List (String × Relation))
       (rtd : TableDef),
       validatePartialData td data = .ok () →
       processFields td data st.fresh st.now ≠ [] →
       whereC ≠ [] →
       st.db.hasTable table = true →
       td.relations = (n, r) :: rest →
       (r.type = RelType.hasMany ∨ r.type = RelType.hasOne) →
       σ.lookup r.model = some rtd →
       (st.db.rowsOf table).filter (fun q => rowMatches q whereC) ≠ [] →
       (updateManyLk σ table td whereC data st).result =
         some (.error (.wrap "updateMany" .clientReuse)) ∧
       (updateManyLk σ table td whereC data st).stateOf.db = st.db) ∧
    (∀ (σ : Schema) (table : String) (td : TableDef)
       (whereC data : List (String × Value)) (st : ExecSt)
       (n : String) (r : Relation) (rest : List (String × Relation))
       (jt2 rk2 : String),
       validatePartialData td data = .ok () →
       processFields td data st.fresh st.now ≠ [] →
       whereC ≠ [] →
       st.db.hasTable table = true →
       td.relations = (n, r) :: rest →
       r.type = RelType.manyToMany →
       r.junctionTable = some jt2 → jt2 ≠ "" →
       r.relatedKey = some rk2 → rk2 ≠ "" →
       st.db.hasTable jt2 = true →
       (st.db.rowsOf table).filter (fun q => rowMatches q whereC) ≠ [] →
       (updateManyLk σ table td whereC data st).result =
         some (.error (.wrap "updateMany" .jsTypeError)) ∧
       (updateManyLk σ table td whereC data st).stateOf.db = st.db) := by
  refine ⟨?_, ?_, ?_⟩
  · intro σ table td whereC data st n r rest r0 ms hval hproc hwc hhast hrels
      htype hd hm hid hidU hidN
    have hor : ¬(processFields td data st.fresh st.now = [] ∨ whereC = []) := by
      simp [hproc, hwc]
    have hsets : "id" ∉ ((processFields td data st.fresh st.now).map
        (fun p => (p.1, pgParam p.2))).map Prod.fst := by
      simpa [List.map_map, Function.comp] using hid
    have hi0 : (applySets r0 ((processFields td data st.fresh st.now).map
        (fun p => (p.1, pgParam p.2)))).getF "id" = r0.getF "id" :=
      applySets_getF_not_mem _ _ _ hsets
    have hr0mem : r0 ∈ st.db.rowsOf table ∧ rowMatches r0 whereC = true := by
      have hx : r0 ∈ (st.db.rowsOf table).filter (fun q => rowMatches q whereC) := by
        rw [hm]
        exact List.mem_cons_self _ _
      exact ⟨(List.mem_filter.mp hx).1, (List.mem_filter.mp hx).2⟩
    have hblock : ∀ (setsP : List (String × Value)),
        poolBlocks [Stmt.updateWhereS table setsP whereC] st.db
          (Stmt.updateByIdS table [(r.foreignKey, .vNull)] (r0.getF "id")) = true := by
      intro setsP
      simp only [poolBlocks, List.any_eq_true]
      refine ⟨r0, hr0mem.1, ?_⟩
      rw [pgParam_eq_self _ hidU, sqlEq_self _ hidN]
      simp only [Bool.true_and, rowLocked, List.any_cons, List.any_nil]
      simp [hr0mem.2]
    simp only [updateManyLk, hval]
    rw [if_neg hor]
    simp only [txView, List.foldl_nil, hhast, Bool.not_true, Bool.false_eq_true,
      if_false]
    rw [hm]
    simp only [List.map_cons, hi0, relLoopUMLk, hrels, relLoopUMRelsLk, hd,
      Option.getD_none, updateRelationStepLk, htype, pgParam_vUndef, clientExec,
      List.nil_append]
    rw [if_pos (hblock _)]
    exact ⟨rfl, rfl, rfl⟩
  · intro σ table td whereC data st n r rest rtd hval hproc hwc hhast hrels
      htype hmod hne
    have hor : ¬(processFields td data st.fresh st.now = [] ∨ whereC = []) := by
      simp [hproc, hwc]
    obtain ⟨q0, qs, hq⟩ := List.exists_cons_of_ne_nil hne
    simp only [updateManyLk, hval]
    rw [if_neg hor]
    simp only [txView, List.foldl_nil, hhast, Bool.not_true, Bool.false_eq_true,
      if_false]
    rw [hq]
    simp only [List.map_cons, relLoopUMLk, hrels, relLoopUMRelsLk,
      updateRelationStepLk]
    rcases htype with htype | htype <;>
      simp only [htype, hmod, createNoRel, withTransaction] <;>
        exact ⟨by trivial, by trivial⟩
  · intro σ table td whereC data st n r rest jt2 rk2 hval hproc hwc hhast hrels
      htype hjt hjtne hrk hrkne hhasj hne
    have hor : ¬(processFields td data st.fresh st.now = [] ∨ whereC = []) := by
      simp [hproc, hwc]
    obtain ⟨q0, qs, hq⟩ := List.exists_cons_of_ne_nil hne
    simp only [updateManyLk, hval]
    rw [if_neg hor]
    simp only [txView, List.foldl_nil, hhast, Bool.not_true, Bool.false_eq_true,
      if_false]
    rw [hq]
    simp only [List.map_cons, relLoopUMLk, hrels, relLoopUMRelsLk,
      updateRelationStepLk, htype, m2mValuePayload, hjt, hrk, jsOptFalsy,
      jsStrTruthy, Option.getD]
    simp only [clientExec]
    simp [hjtne, hrkne, hhasj, poolExec, applyStmt]
    exact ⟨rfl, rfl⟩

/-- C9 witness: on the demo schema, an updateMany not naming any
relation blocks forever on the belongsTo foreign-key UPDATE of the
matched pet (nothing committed); fails with the client-reuse error for
the hasMany table; fails with the type error for the manyToMany table —
rolling back in both cases. -/
theorem C9_updateMany_relations_witness :
    ((updateManyLk demoSchema "Pet" petTD [("name", .vStr "rex")]
        [("name", .vStr "rexy")] c9StA).isBlocked = true ∧
     (updateManyLk demoSchema "Pet" petTD [("name", .vStr "rex")]
        [("name", .vStr "rexy")] c9StA).blockedStmt =
       some (.updateByIdS "Pet" [("ownerId", .vNull)] (.vNum 1)) ∧
     (updateManyLk demoSchema "Pet" petTD [("name", .vStr "rex")]
        [("name", .vStr "rexy")] c9StA).stateOf.db = c9StA.db) ∧
    ((updateManyLk demoSchema "User" userTD [("name", .vStr "ann")]
        [("name", .vStr "ann2")] c9StB).result =
          some (.error (.wrap "updateMany" .clientReuse)) ∧
     (updateManyLk demoSchema "User" userTD [("name", .vStr "ann")]
        [("name", .vStr "ann2")] c9StB).stateOf.db = c9StB.db) ∧
    ((updateManyLk demoSchema "Member" memberTD [("name", .vStr "m")]
        [("name", .vStr "m2")] c9StC).result =
          some (.error (.wrap "updateMany" .jsTypeError)) ∧
     (updateManyLk demoSchema "Member" memberTD [("name", .vStr "m")]
        [("name", .vStr "m2")] c9StC).stateOf.db = c9StC.db) :=
  ⟨C9_updateMany_relations.1 demoSchema "Pet" petTD [("name", .vStr "rex")]
      [("name", .vStr "rexy")] c9StA "owner"
      { type := .belongsTo, model := "Owner", foreignKey := "ownerId" } []
      [("id", .vNum 1), ("name", .vStr "rex"), ("ownerId", .vNum 5)] []
      rfl (by decide) (by decide) (by decide) rfl rfl (by decide) (by decide)
      (by decide) (by decide) (by decide),
   C9_updateMany_relations.2.1 demoSchema "User" userTD [("name", .vStr "ann")]
      [("name", .vStr "ann2")] c9StB "posts"
      { type := .hasMany, model := "Post", foreignKey := "userId" } [] postTD
      rfl (by decide) (by decide) (by decide) rfl (Or.inl rfl)
      (by decide) (by decide),
   C9_updateMany_relations.2.2 demoSchema "Member" memberTD [("name", .vStr "m")]
      [("name", .vStr "m2")] c9StC "groups"
      { type := .manyToMany, model := "Group", foreignKey := "memberId",
        junctionTable := some "MemberGroup", relatedKey := some "groupId" } []
      "MemberGroup" "groupId" rfl (by decide) (by decide) (by decide) rfl
      rfl rfl (by decide) rfl (by decide) (by decide) (by decide)⟩

end Squirmy
